import Mathlib

/-!
Shallow embedding of the delta-hedging and margin-risk engine of the
`theta-engine` repository (directory `volatility-hedged-theta-engine`).

All monetary and price quantities are modelled as rationals (`ℚ`); the Python
source uses IEEE doubles, but every claim under study is about the structural
arithmetic of the code, not about rounding at the ulp level.  Python's
`int(x)` (truncation toward zero) and `round(x)` (banker's rounding, half to
even) are modelled explicitly.
-/

namespace ThetaEngine

/-- Python `int(x)`: truncation toward zero. -/
def pyInt (q : ℚ) : ℤ :=
  if 0 ≤ q then ⌊q⌋ else ⌈q⌉

/-- Python 3 `round(x)` to an integer: round half to even (banker's rounding). -/
def pyRound (q : ℚ) : ℤ :=
  let f := ⌊q⌋
  let frac := q - (f : ℚ)
  if frac < 1/2 then f
  else if 1/2 < frac then f + 1
  else if f % 2 = 0 then f else f + 1

/-! ### Greeks resolution (`options_data_manager.py`, `greeks_provider.py`)

`OptionsDataManager.get_delta` consults, in order: the security's live Greeks
(`_from_security`), the same-cycle chain snapshot (`_from_chain`), and the
timestamped cache (`_from_cache`, whose label depends on whether the entry is
from the same day).  `GreeksProvider.get_delta` first calls the manager via
`_qc_greeks`; only when that call fails (exception path, returning `None`)
does it consult `algorithm.greeks_cache` itself and finally fall back to the
analytic ±0.25 default. -/

/-- The per-symbol data sources seen by `OptionsDataManager.get_delta`:
live security Greeks, chain snapshot entry, and cache entry.  A cache entry
carries an optional delta (the stored tuple may hold `None`) and a flag for
whether its timestamp is from the same day as `algorithm.Time`. -/
structure GreeksEnv where
  securityDelta : Option ℚ
  chainDelta : Option ℚ
  cacheEntry : Option (Option ℚ × Bool)

/-- `OptionsDataManager._from_cache` (delta component and source label). -/
def odmFromCache (e : GreeksEnv) : Option ℚ × String :=
  match e.cacheEntry with
  | none => (none, "QC-NONE")
  | some (d, sameDay) => (d, if sameDay then "QC-CACHED" else "QC-CACHED-STALE")

/-- `OptionsDataManager.get_delta`: security → chain → cache → `(0, "QC-NONE")`. -/
def odmGetDelta (e : GreeksEnv) : ℚ × String :=
  match e.securityDelta with
  | some d => (d, "QC")
  | none =>
    match e.chainDelta with
    | some d => (d, "QC-CHAIN")
    | none =>
      match odmFromCache e with
      | (some d, src) => (d, src)
      | (none, _) => (0, "QC-NONE")

/-- The state seen by `GreeksProvider.get_delta`.  `odmAvailable` is true when
`algorithm.options_data` is present and its `get_delta` call returns normally
(the `except` path of `_qc_greeks` corresponds to `odmAvailable = false`).
`gpCache` is the provider's own view of `algorithm.greeks_cache` for the
symbol: stored delta (possibly `None`) and a same-day flag. -/
structure GPEnv where
  odmAvailable : Bool
  odm : GreeksEnv
  gpCache : Option (Option ℚ × Bool)
  isPut : Bool

/-- `GreeksProvider.get_delta`.  When the manager call succeeds its (always
non-`None`) float is returned with label `"QC"`; otherwise the provider's own
cache is consulted (same-day → `"QC-CACHED"`, stale with a stored value →
`"QC-CACHED-STALE"`, a stored `None` raises inside the `try` and falls
through), and finally the analytic ±0.25 fallback fires. -/
def gpGetDelta (e : GPEnv) : ℚ × String :=
  if e.odmAvailable then
    ((odmGetDelta e.odm).1, "QC")
  else
    match e.gpCache with
    | some (some d, true) => (d, "QC-CACHED")
    | some (some d, false) => (d, "QC-CACHED-STALE")
    | _ => (if e.isPut then -(1/4 : ℚ) else (1/4 : ℚ), "FALLBACK")

/-! ### Reg-T style margin estimation
(`risk_manager.calculate_position_size` lines 66–76 and
`delta_hedging._calculate_current_margin_per_contract`).  Both compute the
same three component estimates, take their maximum and floor it at $500. -/

/-- The three Reg-T style component estimates, as in the source:
`estimate1 = 0.20·und·100 − otm·100 + option_price·100`,
`estimate2 = 0.10·und·100 + option_price·100`,
`pct_floor = estimated_margin_pct·strike·100` with
`otm = max 0 (und − strike)`. -/
def marginEstimate1 (strike optionPrice undPx : ℚ) : ℚ :=
  (20/100) * undPx * 100 - max 0 (undPx - strike) * 100 + optionPrice * 100

def marginEstimate2 (optionPrice undPx : ℚ) : ℚ :=
  (10/100) * undPx * 100 + optionPrice * 100

def marginPctFloor (marginPct strike : ℚ) : ℚ :=
  marginPct * strike * 100

/-- `_calculate_current_margin_per_contract` (and the identical block in
`calculate_position_size`): maximum of the three estimates, floored at 500. -/
def estimatedMarginPerContract (marginPct strike optionPrice undPx : ℚ) : ℚ :=
  max 500 (max (marginEstimate1 strike optionPrice undPx)
               (max (marginEstimate2 optionPrice undPx)
                    (marginPctFloor marginPct strike)))

/-! ### Data model for the delta aggregator (`delta_hedging.py`)

Symbols are natural numbers.  `AlgoState` collects the algorithm state read
by `compute_delta_groups`: the `Securities` map, the `Portfolio`, the
`positions` ledger (an insertion-ordered dict, modelled as an association
list), the option→underlying map, and the Greeks provider (which, per
`greeks_provider.py`, always returns a delta value — see `gpGetDelta`). -/

inductive SecType where
  | equity
  | future
  | option
deriving DecidableEq, Repr

inductive AssetKind where
  | equity
  | future
deriving DecidableEq, Repr

structure Security where
  price : ℚ
  contractMultiplier : ℚ
  /-- `Securities[sym].Greeks.Delta` when present (used by the pending loop). -/
  greeksDelta : Option ℚ
deriving DecidableEq, Repr

structure Holding where
  quantity : ℚ
  invested : Bool
deriving DecidableEq, Repr

/-- An entry of the `algorithm.positions` ledger. `dteDays` models
`(expiration - Time).days` when an expiration is set. -/
structure Position where
  symbol : Option ℕ
  quantity : ℚ
  isHedge : Bool
  strike : ℚ
  dteDays : Option ℤ
  entryPrice : ℚ
  creditReceived : ℚ
deriving DecidableEq, Repr

structure AlgoState where
  underlyingSymbol : ℕ
  securities : List (ℕ × Security)
  portfolio : List (ℕ × Holding)
  positions : List (String × Position)
  /-- `opt_symbol.Underlying`; `none` models the attribute being unavailable,
  in which case `_get_underlying_symbol` falls back to `underlying_symbol`. -/
  underlyingOf : ℕ → Option ℕ
  /-- Resolvable contract details (strike) for a portfolio option position;
  `none` models `get_all_filled_option_positions` failing to find them. -/
  contractDetails : ℕ → Option ℚ
  /-- The value component of `greeks_provider.get_delta(sym, …)`. -/
  providerDelta : ℕ → ℚ
  /-- `Symbol.SecurityType`. -/
  secTypeOf : ℕ → SecType

def hedgeMark : String := "hedge_"

/-- Character-list prefix test (`dataStartsWith s p` ⟺ `p` begins `s`). -/
def dataStartsWith : List Char → List Char → Bool
  | _, [] => true
  | [], _ :: _ => false
  | c :: cs, d :: ds => c = d && dataStartsWith cs ds

/-- `pos_id.startswith('hedge_')`. -/
def startsWithHedge (pid : String) : Bool :=
  dataStartsWith pid.data hedgeMark.data

/-- `_get_underlying_symbol`. -/
def undOf (s : AlgoState) (opt : ℕ) : ℕ :=
  (s.underlyingOf opt).getD s.underlyingSymbol

/-- `_asset_kind`: `"equity"` iff the `SecurityType` is `Equity`, else `"future"`. -/
def assetKind (s : AlgoState) (u : ℕ) : AssetKind :=
  if s.secTypeOf u = SecType.equity then AssetKind.equity else AssetKind.future

/-- `_fut_multiplier`: `ContractMultiplier or 1.0` (so a zero multiplier,
being falsy, also gives 1), with 1 on lookup failure. -/
def futMult (s : AlgoState) (u : ℕ) : ℚ :=
  match s.securities.lookup u with
  | some sec => if sec.contractMultiplier = 0 then 1 else sec.contractMultiplier
  | none => 1

/-- The multiplier used for an underlying of the given kind. -/
def multOf (s : AlgoState) (u : ℕ) (k : AssetKind) : ℚ :=
  if k = AssetKind.future then futMult s u else 1

/-- Units per contract: 100 for equity options, 1 for futures options. -/
def upcOf (k : AssetKind) : ℚ :=
  if k = AssetKind.equity then 100 else 1

def secIn (s : AlgoState) (sym : ℕ) : Bool :=
  (s.securities.lookup sym).isSome

def priceOf (s : AlgoState) (sym : ℕ) : ℚ :=
  match s.securities.lookup sym with
  | some sec => sec.price
  | none => 0

/-! ### `get_all_filled_option_positions` and the ledger views -/

structure FilledPos where
  symbol : ℕ
  quantity : ℚ
  strike : ℚ
deriving DecidableEq, Repr

/-- Portfolio option holdings that are invested with nonzero quantity and
resolvable contract details. -/
def filledOptionPositions (s : AlgoState) : List FilledPos :=
  s.portfolio.filterMap (fun sh =>
    if s.secTypeOf sh.1 = SecType.option ∧ sh.2.invested ∧ (0:ℚ) < |sh.2.quantity| then
      match s.contractDetails sh.1 with
      | some strike => some ⟨sh.1, sh.2.quantity, strike⟩
      | none => none
    else none)

/-- `active_option_positions`: ledger values with nonzero quantity that are
not hedges (line 160 of `delta_hedging.py`). -/
def activeOptionPositions (s : AlgoState) : List Position :=
  (s.positions.filter (fun pp => decide (pp.2.quantity ≠ 0) && !pp.2.isHedge)).map Prod.snd

/-! ### Exposure groups -/

structure GroupData where
  units : ℚ := 0
  notional : ℚ := 0
  price : ℚ := 0
  mult : ℚ := 1
  kind : Option AssetKind := none
  dollarDelta : ℚ := 0
  optionDelta : ℚ := 0
  hedgeDelta : ℚ := 0
deriving DecidableEq, Repr

abbrev Groups := List (ℕ × GroupData)

/-- Reading `groups[u]`; absent keys read as the defaultdict default. -/
def getGroup (gs : Groups) (u : ℕ) : GroupData :=
  match gs with
  | [] => {}
  | (v, g) :: t => if v = u then g else getGroup t u

/-- `groups[u] = …; mutate` — update the first occurrence of the key, or
append `(u, f init)` when the key is absent (`init` is the defaultdict
default for loops using plain `groups[u]` access, and the explicit literal
dict for the hedge/pending loops). -/
def updateGroupWith (gs : Groups) (u : ℕ) (init : GroupData)
    (f : GroupData → GroupData) : Groups :=
  match gs with
  | [] => [(u, f init)]
  | (v, g) :: t =>
    if v = u then (v, f g) :: t else (v, g) :: updateGroupWith t u init f

/-- A pending intent `(opt_symbol, qty, cached_delta)`; a two-element item in
the source corresponds to `cachedDelta = 0`. -/
structure PendItem where
  symbol : ℕ
  qty : ℚ
  cachedDelta : ℚ
deriving DecidableEq, Repr

/-- Ordered-set insertion; the source uses a Python `set`, whose iteration
order is unspecified — the groups map built below is order-independent in
its per-key contents, so fixing insertion order loses nothing. -/
def insertUniq (l : List ℕ) (u : ℕ) : List ℕ :=
  if u ∈ l then l else l ++ [u]

/-- `relevant_underlyings`: the configured underlying, the underlyings of all
filled portfolio option positions, of active ledger option positions (with a
truthy symbol), and of pending intents. -/
def relevantUnderlyings (s : AlgoState) (pending : List PendItem) : List ℕ :=
  let l0 := insertUniq [] s.underlyingSymbol
  let l1 := (filledOptionPositions s).foldl
    (fun l fp => insertUniq l (undOf s fp.symbol)) l0
  let l2 := (activeOptionPositions s).foldl
    (fun l p =>
      match p.symbol with
      | some sym => insertUniq l (undOf s sym)
      | none => l) l1
  pending.foldl (fun l it => insertUniq l (undOf s it.symbol)) l2

/-- Loop 1 (lines 180–209): direct underlying holdings not already tracked
as an explicit hedge-ledger entry. -/
def holdingStep (s : AlgoState) (gs : Groups) (u : ℕ) : Groups :=
  if ¬ secIn s u then gs
  else
    match s.portfolio.lookup u with
    | some h =>
      if h.invested then
        let kind := assetKind s u
        let price := priceOf s u
        let mult := multOf s u kind
        let tracked := s.positions.any (fun pp =>
          decide (pp.2.symbol = some u) && startsWithHedge pp.1 && pp.2.isHedge)
        if tracked then gs
        else
          updateGroupWith gs u {} (fun g =>
            { g with
              units := g.units + h.quantity
              notional := g.notional +
                h.quantity * (if kind = AssetKind.equity then price else price * mult)
              price := price, mult := mult, kind := some kind })
      else gs
    | none => gs

/-- The per-option-position group update shared by loops 2 and 3
(lines 211–315): units, notional, dollar delta and option delta. -/
def optionContribStep (s : AlgoState) (gs : Groups) (optSym : ℕ) (qty : ℚ) : Groups :=
  let u := undOf s optSym
  if ¬ secIn s u then gs
  else
    let price := priceOf s u
    let kind := assetKind s u
    let mult := multOf s u kind
    let d := s.providerDelta optSym
    let upc := upcOf kind
    let uc := d * qty * upc
    let odd := d * qty * upc * price
    let nc := if kind = AssetKind.equity then |qty| * 100 * price else uc * price * mult
    updateGroupWith gs u {} (fun g =>
      { g with
        units := g.units + uc
        notional := g.notional + nc
        dollarDelta := g.dollarDelta + odd
        optionDelta := g.optionDelta + odd
        price := price, mult := mult, kind := some kind })

/-- Loop 2 (lines 211–257): filled portfolio option positions. -/
def filledStep (s : AlgoState) (gs : Groups) (fp : FilledPos) : Groups :=
  if ¬ secIn s fp.symbol then gs
  else optionContribStep s gs fp.symbol fp.quantity

/-- Loop 3 (lines 259–315): active ledger option positions not already
accounted among the filled portfolio positions. -/
def activeStep (s : AlgoState) (filled : List FilledPos) (gs : Groups) (p : Position) : Groups :=
  match p.symbol with
  | none => gs
  | some optSym =>
    if ¬ secIn s optSym then gs
    else if filled.any (fun fp => fp.symbol = optSym) then gs
    else optionContribStep s gs optSym p.quantity

/-- Loop 4 (lines 317–364): explicit hedge-ledger entries contribute
`quantity × price` of dollar delta (and hedge delta), nothing else. -/
def hedgeStep (s : AlgoState) (gs : Groups) (pp : String × Position) : Groups :=
  if startsWithHedge pp.1 && pp.2.isHedge && decide (pp.2.quantity ≠ 0) then
    match pp.2.symbol with
    | some u =>
      if ¬ secIn s u then gs
      else
        let price := priceOf s u
        let kind := assetKind s u
        let mult := multOf s u kind
        let hd := pp.2.quantity * price
        updateGroupWith gs u
          { price := price, mult := mult, kind := some kind }
          (fun g =>
            { g with
              dollarDelta := g.dollarDelta + hd
              hedgeDelta := g.hedgeDelta + hd
              price := price, mult := mult, kind := some kind })
    | none => gs
  else gs

/-- Loop 5 (lines 368–438): pending intents not yet reflected in a filled
ledger position; delta comes from the security's live Greeks when available,
else the cached estimate; notional is deliberately not added. -/
def pendStep (s : AlgoState) (gs : Groups) (it : PendItem) : Groups :=
  let alreadyFilled := s.positions.any (fun pp =>
    decide (pp.2.quantity ≠ 0) && !pp.2.isHedge && decide (pp.2.symbol = some it.symbol))
  if alreadyFilled then gs
  else if ¬ secIn s it.symbol then gs
  else
    let u := undOf s it.symbol
    if ¬ secIn s u then gs
    else
      let price := priceOf s u
      let kind := assetKind s u
      let mult := multOf s u kind
      let d := match (s.securities.lookup it.symbol).bind Security.greeksDelta with
        | some dv => dv
        | none => it.cachedDelta
      let upc := upcOf kind
      let uc := d * it.qty * upc
      let odd := d * it.qty * upc * price
      updateGroupWith gs u
        { price := price, mult := mult, kind := some kind }
        (fun g =>
          { g with
            units := g.units + uc
            dollarDelta := g.dollarDelta + odd
            optionDelta := g.optionDelta + odd })

/-- `DeltaHedger.compute_delta_groups` (lines 100–440). -/
def computeDeltaGroups (s : AlgoState) (pending : List PendItem) : Groups :=
  let gs1 := (relevantUnderlyings s pending).foldl (holdingStep s) []
  let gs2 := (filledOptionPositions s).foldl (filledStep s) gs1
  let gs3 := (activeOptionPositions s).foldl (activeStep s (filledOptionPositions s)) gs2
  let gs4 := s.positions.foldl (hedgeStep s) gs3
  pending.foldl (pendStep s) gs4

/-! ### State-threaded `compute_delta_groups`

The source method only reads `positions`, `Securities`, `Portfolio` and the
Greeks caches (via `greeks_provider.get_delta`, which performs no writes —
see `greeks_provider.py` / `options_data_manager.py`: all cache writes live
in `update_chain`, `seed_active_positions` and `cleanup_old_greeks`).  To
state that as a theorem rather than bake it in, the threaded variant below
carries the algorithm state through every loop. -/

def computeDeltaGroupsSt (s : AlgoState) (pending : List PendItem) :
    Groups × AlgoState :=
  let x1 := (relevantUnderlyings s pending).foldl
    (fun x u => (holdingStep x.2 x.1 u, x.2)) (([] : Groups), s)
  let x2 := (filledOptionPositions x1.2).foldl
    (fun x fp => (filledStep x.2 x.1 fp, x.2)) x1
  let filled := filledOptionPositions x2.2
  let x3 := (activeOptionPositions x2.2).foldl
    (fun x p => (activeStep x.2 filled x.1 p, x.2)) x2
  let x4 := x3.2.positions.foldl
    (fun x pp => (hedgeStep x.2 x.1 pp, x.2)) x3
  pending.foldl (fun x it => (pendStep x.2 x.1 it, x.2)) x4

/-! ### Phase-2 per-group rebalance decision
(`execute_delta_hedge_universal`, lines 530–639, NAV band mode). -/

structure P2Config where
  totalPortfolioValue : ℚ
  deltaTargetNavPctEquity : ℚ
  deltaTolNavPctEquity : ℚ
  deltaTargetNavPctFuture : ℚ
  deltaTolNavPctFuture : ℚ
  /-- `delta_revert_mode == "TARGET"` (else BAND). -/
  revertToTarget : Bool
  overnightMarginMax : ℚ
  underlyingHedgeEnabled : Bool
  optionReductionEnabled : Bool
  marginUsed : ℚ
deriving DecidableEq, Repr

/-- `_nav_target_and_band` (lines 442–457): target and tolerance as NAV
percentages, the no-action zone widened by 5% of tolerance on each side. -/
def navTargetAndBand (cfg : P2Config) (kindIsEquity : Bool) : ℚ × ℚ × ℚ :=
  let tgt := cfg.totalPortfolioValue *
    (if kindIsEquity then cfg.deltaTargetNavPctEquity else cfg.deltaTargetNavPctFuture)
  let tol := cfg.totalPortfolioValue *
    (if kindIsEquity then cfg.deltaTolNavPctEquity else cfg.deltaTolNavPctFuture)
  let buf := tol * (5/100)
  (tgt, tgt - tol - buf, tgt + tol + buf)

def p2Band (cfg : P2Config) (g : GroupData) : ℚ × ℚ × ℚ :=
  navTargetAndBand cfg (g.kind = some AssetKind.equity)

/-- Desired dollar delta: band midpoint in TARGET mode, nearest violated
edge in BAND mode (lines 590–595). -/
def p2Desired (cfg : P2Config) (g : GroupData) : ℚ :=
  if cfg.revertToTarget then (p2Band cfg g).1
  else if g.dollarDelta < (p2Band cfg g).2.1 then (p2Band cfg g).2.1
  else (p2Band cfg g).2.2

/-- `units_to_trade = int(round(delta_dollar_delta / (price or price*mult)))`. -/
def p2Units (cfg : P2Config) (g : GroupData) : ℤ :=
  pyRound ((p2Desired cfg g - g.dollarDelta) /
    (if g.kind = some AssetKind.equity then g.price else g.price * g.mult))

/-- Projected margin utilization of the candidate underlying hedge
(lines 603–609): short hedges require 50% of their cost as margin. -/
def p2ProjUtil (cfg : P2Config) (g : GroupData) : ℚ :=
  let units := p2Units cfg g
  let hedgeCost := |(units : ℚ)| * g.price
  let req := if units < 0 then hedgeCost * (1/2) else 0
  if 0 < cfg.totalPortfolioValue then (cfg.marginUsed + req) / cfg.totalPortfolioValue
  else 0

inductive P2Action where
  | noAction
  | hedge (units : ℤ)
  | reduce (deltaDollarDelta : ℚ)
deriving DecidableEq, Repr

/-- The per-group Phase-2 decision in NAV band mode (lines 530–639): skip
zero-dollar-delta groups, skip groups inside the widened band, skip
zero-unit trades, hedge with the underlying when the projected utilization
stays within the overnight ceiling, otherwise reduce option positions. -/
def p2GroupActionNav (cfg : P2Config) (g : GroupData) : P2Action :=
  if g.dollarDelta = 0 then P2Action.noAction
  else if (p2Band cfg g).2.1 ≤ g.dollarDelta ∧ g.dollarDelta ≤ (p2Band cfg g).2.2 then
    P2Action.noAction
  else if p2Units cfg g = 0 then P2Action.noAction
  else if p2ProjUtil cfg g ≤ cfg.overnightMarginMax ∧ cfg.underlyingHedgeEnabled then
    P2Action.hedge (p2Units cfg g)
  else if cfg.overnightMarginMax < p2ProjUtil cfg g ∧ cfg.optionReductionEnabled then
    P2Action.reduce (p2Desired cfg g - g.dollarDelta)
  else P2Action.noAction

/-! ### Option-position reduction (`_execute_option_position_reduction`,
lines 742–959).  Order tickets are modelled as always accepted
(`Submitted`/`Filled`), the optimistic path of the source. -/

structure ReduceConfig where
  deltaEfficiencyWeight : ℚ
  sizeFactorWeight : ℚ
  dteFactorWeight : ℚ
  pnlFactorWeight : ℚ
  maxReductionPct : ℚ
  estimatedMarginPct : ℚ
deriving DecidableEq, Repr

structure RPos where
  posId : String
  symbol : ℕ
  quantity : ℚ
  delta : ℚ
  strike : ℚ
  dteDays : Option ℤ
  entryPrice : ℚ
  currentPrice : ℚ
deriving DecidableEq, Repr

/-- Lines 746–793: the ledger's option positions for the underlying, with
current price and provider delta (0.0 each when the symbol is not in
`Securities`). -/
def reducePositions (s : AlgoState) (u : ℕ) : List RPos :=
  s.positions.filterMap (fun pp =>
    match pp.2.symbol with
    | some sym =>
      if decide (pp.2.quantity ≠ 0) && !pp.2.isHedge &&
          decide (s.secTypeOf sym = SecType.option) && decide (undOf s sym = u) then
        some { posId := pp.1, symbol := sym, quantity := pp.2.quantity
               delta := if secIn s sym then s.providerDelta sym else 0
               strike := pp.2.strike, dteDays := pp.2.dteDays
               entryPrice := pp.2.entryPrice
               currentPrice := if secIn s sym then priceOf s sym else 0 }
      else none
    | none => none)

/-- Lines 801–854: the weighted hybrid reduction score. -/
def scoreOf (w : ReduceConfig) (undPrice : ℚ) (p : RPos) : ℚ :=
  let perContract := estimatedMarginPerContract w.estimatedMarginPct p.strike p.currentPrice undPrice
  let estMargin := perContract * |p.quantity|
  let deltaContribution := |p.delta * p.quantity * 100|
  let eff := if 0 < estMargin then deltaContribution / estMargin else 0
  let size := min (|p.quantity| / 50) 1
  let dte : ℚ := match p.dteDays with
    | some d => if d < 30 then max 0 ((30 - (d : ℚ)) / 30) else 0
    | none => 0
  let pnl := if 0 < p.entryPrice ∧ 0 < p.currentPrice then
      max 0 (-((p.currentPrice - p.entryPrice) / p.entryPrice))
    else 0
  eff * w.deltaEfficiencyWeight + size * w.sizeFactorWeight +
    dte * w.dteFactorWeight + pnl * w.pnlFactorWeight

/-- Stable insertion for a descending sort by key (equal keys keep original
relative order, as Python's stable `list.sort(reverse=True)` does). -/
def sortInsert (key : RPos → ℚ) (a : RPos) : List RPos → List RPos
  | [] => [a]
  | b :: t => if key a ≤ key b then b :: sortInsert key a t else a :: b :: t

/-- Stable descending sort by key, modelling
`option_positions.sort(key=…, reverse=True)` (any two stable sorts by the
same key agree). -/
def sortByKeyDesc (key : RPos → ℚ) : List RPos → List RPos
  | [] => []
  | a :: t => sortInsert key a (sortByKeyDesc key t)

/-- Lines 865–946: close positions in order until the accumulated absolute
dollar-delta reduction reaches the target.  Returns the emitted orders
(position, signed contract quantity), the accumulated reduction, and the
positions left unexamined by the early `break`. -/
def reduceLoop (target undPrice maxPct : ℚ) :
    List RPos → ℚ → List (RPos × ℤ) × ℚ × List RPos
  | [], total => ([], total, [])
  | p :: rest, total =>
    if target ≤ total then ([], total, p :: rest)
    else
      let remaining := target - total
      let dpc := |p.delta| * 100 * undPrice
      if dpc ≤ 0 then reduceLoop target undPrice maxPct rest total
      else
        let n := min (min (pyInt (remaining / dpc)) (pyInt (|p.quantity| * maxPct)))
          (pyInt |p.quantity|)
        if n = 0 then reduceLoop target undPrice maxPct rest total
        else
          let red := |p.delta| * (n : ℚ) * 100 * undPrice
          let q := if 0 < p.quantity then -n else n
          let r := reduceLoop target undPrice maxPct rest (total + red)
          ((p, q) :: r.1, r.2.1, r.2.2)

/-- `_execute_option_position_reduction`: gather, score, sort descending,
reduce until the |delta_dollar_delta| target is met. -/
def executeOptionPositionReduction (s : AlgoState) (w : ReduceConfig) (u : ℕ)
    (deltaDD : ℚ) : List (RPos × ℤ) × ℚ × List RPos :=
  let undPrice := priceOf s u
  let sorted := sortByKeyDesc (scoreOf w undPrice) (reducePositions s u)
  reduceLoop |deltaDD| undPrice w.maxReductionPct sorted 0

/-! ### Order-fill ledger update (`main.py`, `OnOrderEvent`, lines 454–575) -/

/-- The matching test of lines 469–478: same symbol, and hedge entries match
only equity fills while option entries match only option fills. -/
def fillMatch (stype : SecType) (sym : ℕ) (pp : String × Position) : Bool :=
  decide (pp.2.symbol = some sym) &&
    ((startsWithHedge pp.1 && decide (stype = SecType.equity)) ||
     (!startsWithHedge pp.1 && decide (stype = SecType.option)))

/-- Lines 479–517: quantity update, entry-price bookkeeping (options only:
reset from zero, reset on zero crossing, weighted average on same-side
adds), and credit accumulation on short option fills. -/
def applyFillToPosition (isHedgePos isOptionOrder : Bool) (fillPrice fillQty : ℚ)
    (p : Position) : Position :=
  let cq := p.quantity
  let total := cq + fillQty
  let crossing := (0 < cq ∧ total < 0) ∨ (cq < 0 ∧ 0 < total)
  let entry :=
    if ¬isHedgePos ∧ cq = 0 then fillPrice
    else if ¬isHedgePos ∧ crossing then fillPrice
    else if ¬isHedgePos ∧ 0 < cq * fillQty ∧ total ≠ 0 then
      (p.entryPrice * cq + fillPrice * fillQty) / total
    else p.entryPrice
  let credit :=
    if isOptionOrder ∧ fillQty < 0 then p.creditReceived + fillPrice * |fillQty| * 100
    else p.creditReceived
  { p with quantity := total, entryPrice := entry, creditReceived := credit }

/-- Lines 467–539: walk the ledger in order, update the first matching
entry, delete it when the updated quantity is (numerically) zero, and
`break`.  Returns the new ledger and whether a match was found. -/
def updateLedger (stype : SecType) (sym : ℕ) (fillPrice fillQty : ℚ) :
    List (String × Position) → List (String × Position) × Bool
  | [] => ([], false)
  | pp :: t =>
    if fillMatch stype sym pp then
      let p' := applyFillToPosition (startsWithHedge pp.1)
        (decide (stype = SecType.option)) fillPrice fillQty pp.2
      (if |p'.quantity| < 1/1000000 then t else (pp.1, p') :: t, true)
    else
      let r := updateLedger stype sym fillPrice fillQty t
      (pp :: r.1, r.2)

/-- The whole fill handler's effect on the ledger: update a matching entry,
or (lines 542–570) track a fresh hedge entry for an unmatched equity fill
(`newHedgeId` stands for the timestamped id; the source stores `None` for
the strike, read nowhere that this development touches, modelled as 0). -/
def processFill (s : AlgoState) (sym : ℕ) (fillPrice fillQty : ℚ)
    (newHedgeId : String) : List (String × Position) :=
  let stype := s.secTypeOf sym
  let r := updateLedger stype sym fillPrice fillQty s.positions
  if r.2 then r.1
  else if (0:ℚ) < |fillQty| ∧ stype = SecType.equity then
    r.1 ++ [(newHedgeId,
      { symbol := some sym, quantity := fillQty, isHedge := true, strike := 0,
        dteDays := none, entryPrice := 0, creditReceived := 0 })]
  else r.1

/-! ### Per-trade hedge (`execute_delta_hedge_for_trade`, lines 961–1063) -/

structure THEnv where
  optInSecurities : Bool
  undInSecurities : Bool
  kind : AssetKind
  price : ℚ
  mult : ℚ
  /-- `pos['delta']` when a ledger position with a delta key is found. -/
  posDelta : Option ℚ
  /-- The provider's delta, used when no ledger delta is available. -/
  providerDelta : ℚ
  qty : ℚ
  targetTradePctEquity : ℚ
  targetTradePctFuture : ℚ
  /-- Net quantity of already-open orders for the underlying. -/
  openOrdersQty : ℤ
  marginRemaining : ℚ
deriving DecidableEq, Repr

def thDenom (e : THEnv) : ℚ :=
  if e.kind = AssetKind.equity then e.price else e.price * e.mult

/-- The hedge quantity before open-order netting (lines 979–1019). -/
def thUnits0 (e : THEnv) : ℤ :=
  let d := e.posDelta.getD e.providerDelta
  let upc : ℚ := if e.kind = AssetKind.equity then 100 else 1
  let notionalContrib := d * e.qty * upc * thDenom e
  let baseNotional := |e.qty| * upc * thDenom e
  let targetNotional := baseNotional *
    (if e.kind = AssetKind.equity then e.targetTradePctEquity else e.targetTradePctFuture)
  pyRound ((targetNotional - notionalContrib) / thDenom e)

/-- After netting out open orders (lines 1029–1033). -/
def thUnits1 (e : THEnv) : ℤ :=
  thUnits0 e - e.openOrdersQty

/-- The buying-power cap condition (line 1044):
`est_cost > remaining * 0.9 and price > 0`. -/
def thCapTriggered (e : THEnv) : Prop :=
  e.marginRemaining * (9/10) < |(thUnits1 e : ℚ)| * e.price ∧ 0 < e.price

instance (e : THEnv) : Decidable (thCapTriggered e) := by
  unfold thCapTriggered; infer_instance

/-- `max_units = int((remaining * 0.9) / price)` (line 1045). -/
def thMaxUnits (e : THEnv) : ℤ :=
  pyInt (e.marginRemaining * (9/10) / e.price)

/-- `execute_delta_hedge_for_trade`: `none` models a `False` return with no
order; `some u` models a submitted market order for `u` units. -/
def executeDeltaHedgeForTrade (e : THEnv) : Option ℤ :=
  if ¬ e.optInSecurities then none
  else if ¬ e.undInSecurities then none
  else if e.price ≤ 0 then none
  else if thUnits0 e = 0 then none
  else if thUnits1 e = 0 then none
  else
    let units2 :=
      if e.kind = AssetKind.equity then
        if thCapTriggered e then
          if 0 < thUnits1 e then thMaxUnits e else -(thMaxUnits e)
        else thUnits1 e
      else thUnits1 e
    if units2 = 0 then none else some units2

/-! ### Position sizing (`risk_manager.py`, `calculate_position_size` and
`_calculate_dynamic_scaling_factor`) -/

structure SizingEnv where
  portfolioValue : ℚ
  targetMarginUse : ℚ
  marginUsed : ℚ
  marginRemaining : ℚ
  maxMarginPerTradePct : ℚ
  dynamicSizingEnabled : Bool
  lowMarginThreshold : ℚ
  scalingGradualEnabled : Bool
  scalingMinThreshold : ℚ
  scalingMaxThreshold : ℚ
  positionScalingFactor : ℚ
  undPrice : ℚ
  estimatedMarginPct : ℚ
  maxContractsPer100k : ℚ
deriving DecidableEq, Repr

/-- `_calculate_dynamic_scaling_factor` (lines 174–224). -/
def dynamicScalingFactor (e : SizingEnv) (mu : ℚ) : ℚ :=
  if ¬ e.dynamicSizingEnabled then 1
  else if e.lowMarginThreshold ≤ mu then 1
  else
    let sf :=
      if e.scalingGradualEnabled then
        if mu ≤ e.scalingMinThreshold then e.positionScalingFactor
        else if mu ≤ e.scalingMaxThreshold then
          1 + (e.positionScalingFactor - 1) *
            (1 - (mu - e.scalingMinThreshold) /
              (e.scalingMaxThreshold - e.scalingMinThreshold))
        else 1
      else e.positionScalingFactor
    min sf e.positionScalingFactor

/-- Lines 25–52: the margin available to this position, respecting the
target utilization, the broker's remaining buying power and the (scaled)
per-trade cap. -/
def marginPerPosition (e : SizingEnv) : ℚ :=
  let targetMargin := e.portfolioValue * e.targetMarginUse
  let mu := if 0 < e.portfolioValue then e.marginUsed / e.portfolioValue else 0
  let avail := min (max 0 (targetMargin - e.marginUsed)) e.marginRemaining
  let sf := dynamicScalingFactor e mu
  min avail (e.portfolioValue * e.maxMarginPerTradePct * sf)

/-- `calculate_position_size` body (lines 22–92); the surrounding
`except` clause returns 1, see `calculatePositionSizeTotal`. -/
def calculatePositionSize (e : SizingEnv) (optionPrice strike : ℚ) : ℤ :=
  let mpp := marginPerPosition e
  let est := estimatedMarginPerContract e.estimatedMarginPct strike optionPrice e.undPrice
  let contracts : ℤ := if mpp < est then 0 else pyInt (mpp / est)
  let maxContracts := max 1 (pyInt (e.portfolioValue / 100000 * e.maxContractsPer100k))
  min contracts maxContracts

/-- The full method: any exception raised inside the `try` body (e.g. a
failed account or security lookup, `raises = true`) is caught and 1 is
returned (lines 94–96). -/
def calculatePositionSizeTotal (raises : Bool) (e : SizingEnv)
    (optionPrice strike : ℚ) : ℤ :=
  if raises then 1 else calculatePositionSize e optionPrice strike

/-! ### Per-item dollar-delta contributions of `compute_delta_groups`

For the additivity statement, each loop's contribution to the dollar delta
of the group keyed `u` is isolated as a function of the loop item; guard
conditions mirror the `continue` conditions of the corresponding loop. -/

/-- Loop 2: a filled portfolio option position counted for `u` contributes
`delta × quantity × units_per_contract × price`. -/
def filledDDContrib (s : AlgoState) (u : ℕ) (fp : FilledPos) : ℚ :=
  if secIn s fp.symbol ∧ secIn s (undOf s fp.symbol) ∧ undOf s fp.symbol = u then
    s.providerDelta fp.symbol * fp.quantity * upcOf (assetKind s u) * priceOf s u
  else 0

/-- Loop 3: an active ledger option position counted for `u` (not already
among the filled portfolio positions) contributes the same formula. -/
def activeDDContrib (s : AlgoState) (filled : List FilledPos) (u : ℕ) (p : Position) : ℚ :=
  match p.symbol with
  | none => 0
  | some optSym =>
    if secIn s optSym ∧ ¬ filled.any (fun fp => fp.symbol = optSym) ∧
        secIn s (undOf s optSym) ∧ undOf s optSym = u then
      s.providerDelta optSym * p.quantity * upcOf (assetKind s u) * priceOf s u
    else 0

/-- Loop 4: a hedge-ledger entry for `u` contributes `quantity × price`. -/
def hedgeDDContrib (s : AlgoState) (u : ℕ) (pp : String × Position) : ℚ :=
  if startsWithHedge pp.1 && pp.2.isHedge && decide (pp.2.quantity ≠ 0) then
    match pp.2.symbol with
    | some w => if secIn s w ∧ w = u then pp.2.quantity * priceOf s u else 0
    | none => 0
  else 0

/-- Loop 5: a pending intent counted for `u` contributes
`delta × quantity × units_per_contract × price`, its delta taken from the
security's live Greeks when available, else the cached estimate. -/
def pendDDContrib (s : AlgoState) (u : ℕ) (it : PendItem) : ℚ :=
  if s.positions.any (fun pp =>
      decide (pp.2.quantity ≠ 0) && !pp.2.isHedge && decide (pp.2.symbol = some it.symbol)) then 0
  else if secIn s it.symbol ∧ secIn s (undOf s it.symbol) ∧ undOf s it.symbol = u then
    (match (s.securities.lookup it.symbol).bind Security.greeksDelta with
      | some dv => dv
      | none => it.cachedDelta) * it.qty * upcOf (assetKind s u) * priceOf s u
  else 0

/-! ### Concrete instances used by witnesses and counterexamples -/

/-- Scenario A: one filled short put (symbol 1) on underlying 0 — strike
420, quantity −1, delta −0.20, underlying price 450. -/
def stScenA : AlgoState :=
  { underlyingSymbol := 0
    securities := [(0, { price := 450, contractMultiplier := 1, greeksDelta := none }),
                   (1, { price := 5, contractMultiplier := 1, greeksDelta := none })]
    portfolio := [(1, { quantity := -1, invested := true })]
    positions := []
    underlyingOf := fun n => if n = 1 then some 0 else none
    contractDetails := fun n => if n = 1 then some 420 else none
    providerDelta := fun _ => -(1/5)
    secTypeOf := fun n => if n = 1 then SecType.option else SecType.equity }

/-- Scenario A transplanted to a future-kind underlying: the same filled
short put (delta −0.20, quantity −1, underlying price 450) but with the
underlying a future with contract multiplier 50. -/
def stFut : AlgoState :=
  { underlyingSymbol := 0
    securities := [(0, { price := 450, contractMultiplier := 50, greeksDelta := none }),
                   (1, { price := 5, contractMultiplier := 1, greeksDelta := none })]
    portfolio := [(1, { quantity := -1, invested := true })]
    positions := []
    underlyingOf := fun n => if n = 1 then some 0 else none
    contractDetails := fun n => if n = 1 then some 420 else none
    providerDelta := fun _ => -(1/5)
    secTypeOf := fun n => if n = 1 then SecType.option else SecType.future }

/-- A state whose underlying (symbol 0) has price 0 while an active ledger
short put (symbol 1, delta −0.25, quantity −1) references it. -/
def stZeroPrice : AlgoState :=
  { underlyingSymbol := 0
    securities := [(0, { price := 0, contractMultiplier := 1, greeksDelta := none }),
                   (1, { price := 3, contractMultiplier := 1, greeksDelta := none })]
    portfolio := []
    positions := [("p1",
      { symbol := some 1
        quantity := -1
        isHedge := false
        strike := 420
        dteDays := none
        entryPrice := 5
        creditReceived := 0 })]
    underlyingOf := fun n => if n = 1 then some 0 else none
    contractDetails := fun _ => none
    providerDelta := fun _ => -(1/4)
    secTypeOf := fun n => if n = 1 then SecType.option else SecType.equity }

/-- A ledger with one short option position (symbol 5, quantity −1) whose
next fill (+1) brings the quantity exactly to zero. -/
def stFillZero : AlgoState :=
  { underlyingSymbol := 0
    securities := []
    portfolio := []
    positions := [("optpos1",
      { symbol := some 5
        quantity := -1
        isHedge := false
        strike := 420
        dteDays := none
        entryPrice := 2
        creditReceived := 200 })]
    underlyingOf := fun _ => none
    contractDetails := fun _ => none
    providerDelta := fun _ => 0
    secTypeOf := fun n => if n = 5 then SecType.option else SecType.equity }

/-- The position stored under `"optpos1"` in `stFillZero`. -/
def posFillZero : Position :=
  { symbol := some 5
    quantity := -1
    isHedge := false
    strike := 420
    dteDays := none
    entryPrice := 2
    creditReceived := 200 }

/-- The Scenario-B configuration: portfolio value $100,000, NAV target 10%
($10,000), tolerance 2% ($2,000). -/
def cfgScenB : P2Config :=
  { totalPortfolioValue := 100000
    deltaTargetNavPctEquity := 1/10
    deltaTolNavPctEquity := 1/50
    deltaTargetNavPctFuture := 0
    deltaTolNavPctFuture := 0
    revertToTarget := true
    overnightMarginMax := 95/100
    underlyingHedgeEnabled := true
    optionReductionEnabled := true
    marginUsed := 0 }

/-- The Scenario-B group: current dollar delta $12,000 on an equity
underlying. -/
def grpScenB : GroupData :=
  { units := 0, notional := 0, price := 450, mult := 1
    kind := some AssetKind.equity, dollarDelta := 12000, optionDelta := 12000
    hedgeDelta := 0 }

/-- A per-trade hedge environment with negative remaining margin: the
buying-power cap then flips the trade's sign instead of capping it. -/
def thEnvNeg : THEnv :=
  { optInSecurities := true, undInSecurities := true, kind := AssetKind.equity
    price := 10, mult := 1, posDelta := some 0, providerDelta := 0, qty := 1
    targetTradePctEquity := 1/10, targetTradePctFuture := 0
    openOrdersQty := 0, marginRemaining := -100 }

theorem thEnvNeg_units0 : thUnits0 thEnvNeg = 10 := by
  norm_num [thUnits0, thDenom, thEnvNeg, pyRound]

theorem thEnvNeg_units1 : thUnits1 thEnvNeg = 10 := by
  rw [thUnits1, thEnvNeg_units0]; norm_num [thEnvNeg]

theorem thEnvNeg_cap : thCapTriggered thEnvNeg := by
  constructor
  · rw [thEnvNeg_units1]; norm_num [thEnvNeg]
  · norm_num [thEnvNeg]

theorem thEnvNeg_maxUnits : thMaxUnits thEnvNeg = -9 := by
  norm_num [thMaxUnits, thEnvNeg, pyInt, Int.ceil_eq_iff]

/-- A per-trade hedge environment with ample remaining margin. -/
def thEnvOk : THEnv :=
  { optInSecurities := true, undInSecurities := true, kind := AssetKind.equity
    price := 10, mult := 1, posDelta := some 0, providerDelta := 0, qty := 1
    targetTradePctEquity := 1/10, targetTradePctFuture := 0
    openOrdersQty := 0, marginRemaining := 1000 }


/-- A Phase-2 configuration under margin stress: portfolio $100,000, margin
used $96,000, overnight ceiling 95%, NAV target 0%, tolerance 1%. -/
def cfgC3 : P2Config :=
  { totalPortfolioValue := 100000
    deltaTargetNavPctEquity := 0
    deltaTolNavPctEquity := 1/100
    deltaTargetNavPctFuture := 0
    deltaTolNavPctFuture := 0
    revertToTarget := true
    overnightMarginMax := 95/100
    underlyingHedgeEnabled := true
    optionReductionEnabled := true
    marginUsed := 96000 }

/-- A group with dollar delta $20,000 on an equity underlying at price 100:
the corrective hedge would short 200 shares, whose 50% margin requirement
pushes projected utilization to 106%. -/
def grpC3 : GroupData :=
  { units := 0, notional := 0, price := 100, mult := 1
    kind := some AssetKind.equity, dollarDelta := 20000, optionDelta := 20000
    hedgeDelta := 0 }

/-- State for the reduction run: one short put (symbol 1, 10 contracts,
delta −0.25) on underlying 0 (price 100), plus a hedge-ledger entry of 300
shares of the underlying. -/
def stC3 : AlgoState :=
  { underlyingSymbol := 0
    securities := [(0, { price := 100, contractMultiplier := 1, greeksDelta := none }),
                   (1, { price := 5, contractMultiplier := 1, greeksDelta := none })]
    portfolio := []
    positions := [("p1",
      { symbol := some 1
        quantity := -10
        isHedge := false
        strike := 100
        dteDays := none
        entryPrice := 5
        creditReceived := 0 }),
      ("hedge_h",
      { symbol := some 0
        quantity := 300
        isHedge := true
        strike := 0
        dteDays := none
        entryPrice := 0
        creditReceived := 0 })]
    underlyingOf := fun n => if n = 1 then some 0 else none
    contractDetails := fun _ => none
    providerDelta := fun _ => -(1/4)
    secTypeOf := fun n => if n = 1 then SecType.option else SecType.equity }

/-- Reduction weights/config: default 0.4/0.2/0.2/0.2 weights, 20% max
reduction per position, 10% margin percentage. -/
def wC3 : ReduceConfig :=
  { deltaEfficiencyWeight := 2/5
    sizeFactorWeight := 1/5
    dteFactorWeight := 1/5
    pnlFactorWeight := 1/5
    maxReductionPct := 1/5
    estimatedMarginPct := 1/10 }

/-- The short put of `stC3` as seen by the reduction scorer. -/
def rpC3 : RPos :=
  { posId := "p1", symbol := 1, quantity := -10, delta := -(1/4), strike := 100
    dteDays := none, entryPrice := 5, currentPrice := 5 }

/-! ## Theorems -/

/-- C5: for every strike, option price, and positive underlying price, the
estimated margin per contract equals the maximum of the three Reg-T style
component estimates floored at the hard $500 minimum, and is therefore
at least each of the three components and at least $500. -/
theorem margin_floor_c5 (marginPct strike optionPrice undPx : ℚ)
    (_hpos : 0 < undPx) :
    estimatedMarginPerContract marginPct strike optionPrice undPx =
      max 500 (max (marginEstimate1 strike optionPrice undPx)
        (max (marginEstimate2 optionPrice undPx) (marginPctFloor marginPct strike))) ∧
    marginEstimate1 strike optionPrice undPx ≤
      estimatedMarginPerContract marginPct strike optionPrice undPx ∧
    marginEstimate2 optionPrice undPx ≤
      estimatedMarginPerContract marginPct strike optionPrice undPx ∧
    marginPctFloor marginPct strike ≤
      estimatedMarginPerContract marginPct strike optionPrice undPx ∧
    (500:ℚ) ≤ estimatedMarginPerContract marginPct strike optionPrice undPx := by
  unfold estimatedMarginPerContract
  refine ⟨rfl, ?_, ?_, ?_, le_max_left _ _⟩
  · exact le_max_of_le_right (le_max_left _ _)
  · exact le_max_of_le_right (le_max_of_le_right (le_max_left _ _))
  · exact le_max_of_le_right (le_max_of_le_right (le_max_right _ _))

/-- Witness for C5 at the spec's Scenario-A style numbers: strike 420,
option price 5, underlying 450, configured percentage 10%. -/
theorem margin_floor_c5_witness :
    (0:ℚ) < 450 ∧
    (estimatedMarginPerContract (1/10) 420 5 450 =
      max 500 (max (marginEstimate1 420 5 450)
        (max (marginEstimate2 5 450) (marginPctFloor (1/10) 420))) ∧
    marginEstimate1 420 5 450 ≤ estimatedMarginPerContract (1/10) 420 5 450 ∧
    marginEstimate2 5 450 ≤ estimatedMarginPerContract (1/10) 420 5 450 ∧
    marginPctFloor (1/10) 420 ≤ estimatedMarginPerContract (1/10) 420 5 450 ∧
    (500:ℚ) ≤ estimatedMarginPerContract (1/10) 420 5 450) :=
  ⟨by norm_num, margin_floor_c5 (1/10) 420 5 450 (by norm_num)⟩

/-- `pyInt` is the floor on nonnegative arguments. -/
theorem pyInt_of_nonneg {q : ℚ} (h : 0 ≤ q) : pyInt q = ⌊q⌋ := by
  simp [pyInt, h]

/-- C10: any exception inside `calculate_position_size` yields 1 contract;
the normal path yields 0 contracts exactly when the available margin for
this position falls below the estimated margin per contract. -/
theorem position_size_zero_c10 (e : SizingEnv) (optionPrice strike : ℚ) :
    calculatePositionSizeTotal true e optionPrice strike = 1 ∧
    (calculatePositionSizeTotal false e optionPrice strike = 0 ↔
      marginPerPosition e <
        estimatedMarginPerContract e.estimatedMarginPct strike optionPrice e.undPrice) := by
  constructor
  · rfl
  · unfold calculatePositionSizeTotal calculatePositionSize
    simp only [if_false, Bool.false_eq_true]
    set mpp := marginPerPosition e with hmpp
    set est := estimatedMarginPerContract e.estimatedMarginPct strike optionPrice e.undPrice
      with hest
    have hest500 : (500:ℚ) ≤ est := by
      rw [hest]; unfold estimatedMarginPerContract; exact le_max_left _ _
    have hmaxc : (1:ℤ) ≤ max 1 (pyInt (e.portfolioValue / 100000 * e.maxContractsPer100k)) :=
      le_max_left _ _
    by_cases h : mpp < est
    · rw [if_pos h]
      have h0 : (0:ℤ) ≤ max 1 (pyInt (e.portfolioValue / 100000 * e.maxContractsPer100k)) :=
        le_trans (by norm_num) hmaxc
      exact ⟨fun _ => h, fun _ => min_eq_left h0⟩
    · rw [if_neg h]
      have hle : est ≤ mpp := le_of_not_lt h
      have hestpos : (0:ℚ) < est := lt_of_lt_of_le (by norm_num) hest500
      have hq : (1:ℚ) ≤ mpp / est := (le_div_iff₀ hestpos).mpr (by linarith)
      have hq0 : (0:ℚ) ≤ mpp / est := le_trans (by norm_num) hq
      have hfl : (1:ℤ) ≤ pyInt (mpp / est) := by
        rw [pyInt_of_nonneg hq0]
        exact Int.le_floor.mpr (by exact_mod_cast hq)
      have hmin : (1:ℤ) ≤ min (pyInt (mpp / est))
          (max 1 (pyInt (e.portfolioValue / 100000 * e.maxContractsPer100k))) :=
        le_min hfl hmaxc
      exact ⟨fun hzero => absurd hzero (by omega), fun hlt => absurd hlt h⟩

/-- C1 counterexample: with the options-data manager present and the live
quote, chain snapshot and cache all absent, `GreeksProvider.get_delta`
returns `(0.0, "QC")` — the manager's QC-NONE zero passed through — not the
non-zero analytic ±0.25 fallback the claim describes. -/
theorem greeks_fallback_c1_counterexample :
    gpGetDelta ⟨true, ⟨none, none, none⟩, none, true⟩ = (0, "QC") ∧
    (gpGetDelta ⟨true, ⟨none, none, none⟩, none, true⟩).1 = 0 := by
  constructor <;> rfl

/-- C1 (amended): `get_delta` is total — it always returns a
`(value, label)` pair.  When the options-data-manager call itself fails and
the provider's own cache has no usable entry, the analytic ±0.25 fallback
(non-zero, negative for puts) is returned; but when the manager is
reachable and all three of its sources are absent, the result is the
manager's zero with label `"QC"`, not the analytic fallback. -/
theorem greeks_fallback_c1 (e : GPEnv) :
    (e.odmAvailable = false → Option.bind e.gpCache Prod.fst = none →
      gpGetDelta e = ((if e.isPut then -(1/4 : ℚ) else (1/4 : ℚ)), "FALLBACK") ∧
      (gpGetDelta e).1 ≠ 0) ∧
    (e.odmAvailable = true → e.odm.securityDelta = none → e.odm.chainDelta = none →
      e.odm.cacheEntry = none → gpGetDelta e = (0, "QC")) := by
  obtain ⟨avail, ⟨sd, cd, ce⟩, cache, isPut⟩ := e
  constructor
  · rintro rfl hc
    match cache, hc with
    | none, _ =>
      cases isPut <;> simp [gpGetDelta]
    | some (none, b), _ =>
      cases isPut <;> cases b <;> simp [gpGetDelta]
  · rintro rfl rfl rfl rfl
    rfl

/-- Witness for C1 (amended), at a put with the manager failing and no
provider cache: the fallback −0.25 value is returned. -/
theorem greeks_fallback_c1_witness :
    gpGetDelta ⟨false, ⟨none, none, none⟩, none, true⟩ = (-(1/4 : ℚ), "FALLBACK") ∧
    (gpGetDelta ⟨false, ⟨none, none, none⟩, none, true⟩).1 ≠ 0 :=
  (greeks_fallback_c1 ⟨false, ⟨none, none, none⟩, none, true⟩).1 rfl rfl

/-- C4: in NAV mode the no-action band is the raw tolerance band widened by
5% of tolerance on each side, and a group whose current dollar delta lies
inside the widened band produces no hedge action. -/
theorem hysteresis_c4 (cfg : P2Config) (g : GroupData)
    (hlo : (p2Band cfg g).2.1 ≤ g.dollarDelta)
    (hhi : g.dollarDelta ≤ (p2Band cfg g).2.2) :
    (p2Band cfg g).2.1 = (p2Band cfg g).1 -
      cfg.totalPortfolioValue * (if g.kind = some AssetKind.equity
        then cfg.deltaTolNavPctEquity else cfg.deltaTolNavPctFuture) * (105/100) ∧
    (p2Band cfg g).2.2 = (p2Band cfg g).1 +
      cfg.totalPortfolioValue * (if g.kind = some AssetKind.equity
        then cfg.deltaTolNavPctEquity else cfg.deltaTolNavPctFuture) * (105/100) ∧
    p2GroupActionNav cfg g = P2Action.noAction := by
  refine ⟨?_, ?_, ?_⟩
  · unfold p2Band navTargetAndBand
    by_cases hk : g.kind = some AssetKind.equity <;> simp [hk] <;> ring
  · unfold p2Band navTargetAndBand
    by_cases hk : g.kind = some AssetKind.equity <;> simp [hk] <;> ring
  · unfold p2GroupActionNav
    by_cases h0 : g.dollarDelta = 0
    · simp [h0]
    · simp only [h0, if_false]
      rw [if_pos ⟨hlo, hhi⟩]

/-- Witness for C4 at Scenario B: band [7,900, 12,100], current $12,000 →
no hedge fires. -/
theorem hysteresis_c4_witness :
    ((p2Band cfgScenB grpScenB).2.1 = (p2Band cfgScenB grpScenB).1 -
      cfgScenB.totalPortfolioValue * (if grpScenB.kind = some AssetKind.equity
        then cfgScenB.deltaTolNavPctEquity else cfgScenB.deltaTolNavPctFuture) * (105/100) ∧
    (p2Band cfgScenB grpScenB).2.2 = (p2Band cfgScenB grpScenB).1 +
      cfgScenB.totalPortfolioValue * (if grpScenB.kind = some AssetKind.equity
        then cfgScenB.deltaTolNavPctEquity else cfgScenB.deltaTolNavPctFuture) * (105/100) ∧
    p2GroupActionNav cfgScenB grpScenB = P2Action.noAction) ∧
    (p2Band cfgScenB grpScenB).2.1 = 7900 ∧ (p2Band cfgScenB grpScenB).2.2 = 12100 :=
  ⟨hysteresis_c4 cfgScenB grpScenB (by norm_num [p2Band, navTargetAndBand, cfgScenB, grpScenB])
      (by norm_num [p2Band, navTargetAndBand, cfgScenB, grpScenB]),
    by norm_num [p2Band, navTargetAndBand, cfgScenB, grpScenB],
    by norm_num [p2Band, navTargetAndBand, cfgScenB, grpScenB]⟩

/-- C9 counterexample: with remaining margin −$100, the cap branch computes
`int(0.9·(−100)/10) = −9` and submits an order for −9 shares whose estimated
cost $90 exceeds 90% of the remaining margin (−$90), contradicting the
claimed cap. -/
theorem trade_hedge_cap_c9_counterexample :
    executeDeltaHedgeForTrade thEnvNeg = some (-9) ∧
    ¬ (|((-9 : ℤ) : ℚ)| * thEnvNeg.price ≤ (9/10) * thEnvNeg.marginRemaining) := by
  constructor
  · have h1 : thEnvNeg.optInSecurities = true := rfl
    have h2 : thEnvNeg.undInSecurities = true := rfl
    have h3 : thEnvNeg.kind = AssetKind.equity := rfl
    have h4 : ¬ (thEnvNeg.price ≤ 0) := by norm_num [thEnvNeg]
    have h5 : 0 < thUnits1 thEnvNeg := by rw [thEnvNeg_units1]; norm_num
    simp [executeDeltaHedgeForTrade, h1, h2, h3, h4, h5, thEnvNeg_units0,
      thEnvNeg_units1, thEnvNeg_maxUnits, if_pos thEnvNeg_cap]
  · norm_num [thEnvNeg]

/-- Shape of any successful `execute_delta_hedge_for_trade` result. -/
theorem executeDeltaHedgeForTrade_some_eq {e : THEnv} {u : ℤ}
    (h : executeDeltaHedgeForTrade e = some u) :
    0 < e.price ∧ u ≠ 0 ∧
    u = (if e.kind = AssetKind.equity then
          (if thCapTriggered e then
            (if 0 < thUnits1 e then thMaxUnits e else -(thMaxUnits e))
          else thUnits1 e)
         else thUnits1 e) := by
  unfold executeDeltaHedgeForTrade at h
  dsimp only [] at h
  split_ifs at h ⊢ <;> simp_all [not_le] <;> omega

/-- C9 (amended): for an equity underlying with nonnegative remaining
margin, any submitted per-trade hedge satisfies
`|units| × price ≤ 0.9 × margin remaining`; moreover an order is only
submitted when the cap, if triggered, did not truncate the quantity to
zero (truncation to zero returns `False` with no order). -/
theorem trade_hedge_cap_c9 (e : THEnv) (u : ℤ)
    (hr : 0 ≤ e.marginRemaining) (hk : e.kind = AssetKind.equity)
    (h : executeDeltaHedgeForTrade e = some u) :
    |(u : ℚ)| * e.price ≤ (9/10) * e.marginRemaining ∧
    (thCapTriggered e → thMaxUnits e ≠ 0) := by
  obtain ⟨hp, hu0, hval⟩ := executeDeltaHedgeForTrade_some_eq h
  rw [hk] at hval
  rw [if_pos rfl] at hval
  by_cases hcap : thCapTriggered e
  · rw [if_pos hcap] at hval
    have hx : (0:ℚ) ≤ e.marginRemaining * (9/10) / e.price :=
      div_nonneg (by linarith) hp.le
    have hfl : ((thMaxUnits e : ℤ) : ℚ) ≤ e.marginRemaining * (9/10) / e.price := by
      rw [thMaxUnits, pyInt_of_nonneg hx]; exact Int.floor_le _
    have hfl0 : (0:ℤ) ≤ thMaxUnits e := by
      rw [thMaxUnits, pyInt_of_nonneg hx]; exact Int.floor_nonneg.mpr hx
    have hbound : ((thMaxUnits e : ℤ) : ℚ) * e.price ≤ (9/10) * e.marginRemaining := by
      have := (le_div_iff₀ hp).mp hfl; linarith
    by_cases hs : 0 < thUnits1 e
    · rw [if_pos hs] at hval
      subst hval
      refine ⟨?_, fun _ => hu0⟩
      rw [abs_of_nonneg (by exact_mod_cast hfl0 : (0:ℚ) ≤ ((thMaxUnits e : ℤ) : ℚ))]
      exact hbound
    · rw [if_neg hs] at hval
      subst hval
      have hmu : thMaxUnits e ≠ 0 := fun hz => hu0 (by rw [hz]; ring)
      refine ⟨?_, fun _ => hmu⟩
      have habs : |((-(thMaxUnits e) : ℤ) : ℚ)| = ((thMaxUnits e : ℤ) : ℚ) := by
        push_cast
        rw [abs_neg]
        exact abs_of_nonneg (by exact_mod_cast hfl0)
      rw [habs]
      exact hbound
  · rw [if_neg hcap] at hval
    subst hval
    have hnc : ¬ (e.marginRemaining * (9/10) < |(thUnits1 e : ℚ)| * e.price ∧ 0 < e.price) :=
      hcap
    have hle : |(thUnits1 e : ℚ)| * e.price ≤ e.marginRemaining * (9/10) := by
      by_contra hgt
      exact hnc ⟨lt_of_not_le hgt, hp⟩
    exact ⟨by linarith, fun hc => absurd hc hcap⟩

theorem thEnvOk_eval : executeDeltaHedgeForTrade thEnvOk = some 10 := by
  have h1 : thEnvOk.optInSecurities = true := rfl
  have h2 : thEnvOk.undInSecurities = true := rfl
  have h3 : thEnvOk.kind = AssetKind.equity := rfl
  have h4 : ¬ (thEnvOk.price ≤ 0) := by norm_num [thEnvOk]
  have hu0 : thUnits0 thEnvOk = 10 := by norm_num [thUnits0, thDenom, thEnvOk, pyRound]
  have hu1 : thUnits1 thEnvOk = 10 := by rw [thUnits1, hu0]; norm_num [thEnvOk]
  have hnc : ¬ thCapTriggered thEnvOk := by
    rw [thCapTriggered, hu1]; norm_num [thEnvOk]
  simp [executeDeltaHedgeForTrade, h1, h2, h3, h4, hu0, hu1, if_neg hnc]

/-- Witness for C9 (amended): with remaining margin $1,000 the function
submits 10 shares ($100 ≤ $900). -/
theorem trade_hedge_cap_c9_witness :
    |((10 : ℤ) : ℚ)| * thEnvOk.price ≤ (9/10) * thEnvOk.marginRemaining ∧
    (thCapTriggered thEnvOk → thMaxUnits thEnvOk ≠ 0) :=
  trade_hedge_cap_c9 thEnvOk 10 (by norm_num [thEnvOk]) rfl thEnvOk_eval

/-! ### Ledger round-trip on fills (C8) -/

theorem applyFillToPosition_quantity (a b : Bool) (fp fq : ℚ) (p : Position) :
    (applyFillToPosition a b fp fq p).quantity = p.quantity + fq := rfl

theorem updateLedger_erase (stype : SecType) (sym : ℕ) (fp fq : ℚ) :
    ∀ (l : List (String × Position)) (pid : String) (p : Position),
      l.find? (fillMatch stype sym) = some (pid, p) → p.quantity + fq = 0 →
      updateLedger stype sym fp fq l = (l.eraseP (fillMatch stype sym), true) := by
  intro l
  induction l with
  | nil => intro pid p h _; simp at h
  | cons hd t ih =>
    intro pid p hfind hz
    by_cases hm : fillMatch stype sym hd = true
    · rw [List.find?_cons_of_pos _ hm] at hfind
      have hhd : hd = (pid, p) := by injection hfind
      have hq : (applyFillToPosition (startsWithHedge hd.1)
          (decide (stype = SecType.option)) fp fq hd.2).quantity = 0 := by
        rw [applyFillToPosition_quantity, hhd, hz]
      simp only [updateLedger, if_pos hm]
      rw [if_pos (by rw [hq]; norm_num), List.eraseP_cons_of_pos hm]
    · rw [List.find?_cons_of_neg _ hm] at hfind
      have hrec := ih pid p hfind hz
      simp only [updateLedger, if_neg hm, hrec, List.eraseP_cons_of_neg hm]

theorem eraseP_found_length (pr : String × Position → Bool) :
    ∀ (l : List (String × Position)) (x : String × Position),
      l.find? pr = some x → (l.eraseP pr).length + 1 = l.length := by
  intro l
  induction l with
  | nil => intro x h; simp at h
  | cons hd t ih =>
    intro x hfind
    by_cases hm : pr hd = true
    · rw [List.eraseP_cons_of_pos hm]
      simp
    · rw [List.find?_cons_of_neg _ hm] at hfind
      rw [List.eraseP_cons_of_neg hm]
      simp only [List.length_cons]
      rw [ih x hfind]

theorem eraseP_found_key_not_mem (pr : String × Position → Bool) :
    ∀ (l : List (String × Position)) (pid : String) (p : Position),
      (l.map Prod.fst).Nodup → l.find? pr = some (pid, p) →
      pid ∉ (l.eraseP pr).map Prod.fst := by
  intro l
  induction l with
  | nil => intro pid p _ h; simp at h
  | cons hd t ih =>
    intro pid p hnd hfind
    rw [List.map_cons, List.nodup_cons] at hnd
    by_cases hm : pr hd = true
    · rw [List.find?_cons_of_pos _ hm] at hfind
      have hhd : hd = (pid, p) := by injection hfind
      rw [List.eraseP_cons_of_pos hm]
      rw [hhd] at hnd
      exact hnd.1
    · rw [List.find?_cons_of_neg _ hm] at hfind
      rw [List.eraseP_cons_of_neg hm, List.map_cons]
      intro hmem
      rcases List.mem_cons.mp hmem with h1 | h2
      · have hmemt : (pid, p) ∈ t := List.mem_of_find?_eq_some hfind
        have : pid ∈ t.map Prod.fst := List.mem_map.mpr ⟨(pid, p), hmemt, rfl⟩
        rw [h1] at this
        exact hnd.1 this
      · exact ih pid p hnd.2 hfind h2

theorem eraseP_found_mem_other (pr : String × Position → Bool) :
    ∀ (l : List (String × Position)) (pid : String) (p : Position),
      l.find? pr = some (pid, p) →
      ∀ q ∈ l, q.1 ≠ pid → q ∈ l.eraseP pr := by
  intro l
  induction l with
  | nil => intro pid p h; simp at h
  | cons hd t ih =>
    intro pid p hfind q hq hne
    by_cases hm : pr hd = true
    · rw [List.find?_cons_of_pos _ hm] at hfind
      have hhd : hd = (pid, p) := by injection hfind
      rw [List.eraseP_cons_of_pos hm]
      rcases List.mem_cons.mp hq with h1 | h2
      · exfalso; apply hne; rw [h1, hhd]
      · exact h2
    · rw [List.find?_cons_of_neg _ hm] at hfind
      rw [List.eraseP_cons_of_neg hm]
      rcases List.mem_cons.mp hq with h1 | h2
      · rw [h1]; exact List.mem_cons_self _ _
      · exact List.mem_cons_of_mem _ (ih pid p hfind q h2 hne)

/-- C8: when a fill brings the first ledger position matching the order's
symbol and type exactly to zero quantity, that position is removed exactly
once: the resulting ledger is the original with that one entry erased —
one entry shorter, no entry keyed by that id remains (so no zero-quantity
entry can match later fills), every other entry survives unchanged, and
nothing new is added. -/
theorem ledger_roundtrip_c8 (s : AlgoState) (sym : ℕ) (fp fq : ℚ)
    (pid : String) (p : Position) (hid : String)
    (hnd : (s.positions.map Prod.fst).Nodup)
    (hfind : s.positions.find? (fillMatch (s.secTypeOf sym) sym) = some (pid, p))
    (hz : p.quantity + fq = 0) :
    processFill s sym fp fq hid =
      s.positions.eraseP (fillMatch (s.secTypeOf sym) sym) ∧
    (processFill s sym fp fq hid).length + 1 = s.positions.length ∧
    pid ∉ (processFill s sym fp fq hid).map Prod.fst ∧
    (∀ q ∈ s.positions, q.1 ≠ pid → q ∈ processFill s sym fp fq hid) ∧
    (∀ q ∈ processFill s sym fp fq hid, q ∈ s.positions) := by
  have he := updateLedger_erase (s.secTypeOf sym) sym fp fq s.positions pid p hfind hz
  have hp : processFill s sym fp fq hid =
      s.positions.eraseP (fillMatch (s.secTypeOf sym) sym) := by
    simp only [processFill]
    rw [he]
    simp
  refine ⟨hp, ?_, ?_, ?_, ?_⟩
  · rw [hp]
    exact eraseP_found_length _ s.positions (pid, p) hfind
  · rw [hp]
    exact eraseP_found_key_not_mem _ s.positions pid p hnd hfind
  · intro q hq hne
    rw [hp]
    exact eraseP_found_mem_other _ s.positions pid p hfind q hq hne
  · intro q hq
    rw [hp] at hq
    exact (List.eraseP_sublist _).subset hq

/-- Witness for C8: the short put at quantity −1 filled with +1 leaves an
empty ledger and no entry keyed `"optpos1"`. -/
theorem ledger_roundtrip_c8_witness :
    processFill stFillZero 5 2 1 "h1" =
      stFillZero.positions.eraseP (fillMatch (stFillZero.secTypeOf 5) 5) ∧
    (processFill stFillZero 5 2 1 "h1").length + 1 = stFillZero.positions.length ∧
    "optpos1" ∉ (processFill stFillZero 5 2 1 "h1").map Prod.fst := by
  have hsw : startsWithHedge "optpos1" = false := by decide
  have hfind : stFillZero.positions.find? (fillMatch (stFillZero.secTypeOf 5) 5) =
      some ("optpos1", posFillZero) := by
    simp [stFillZero, posFillZero, List.find?, fillMatch, hsw]
  have h := ledger_roundtrip_c8 stFillZero 5 2 1 "optpos1" posFillZero "h1"
    (by simp [stFillZero]) hfind (by norm_num [posFillZero])
  exact ⟨h.1, h.2.1, h.2.2.1⟩

/-! ### Additivity of the dollar delta (infrastructure for C2 and C6) -/

theorem getGroup_updateGroupWith_dd (v : ℕ) (init : GroupData)
    (f : GroupData → GroupData) (δ : ℚ)
    (hf : ∀ g, (f g).dollarDelta = g.dollarDelta + δ)
    (h0 : init.dollarDelta = 0) :
    ∀ (gs : Groups) (u : ℕ),
      (getGroup (updateGroupWith gs v init f) u).dollarDelta =
        (getGroup gs u).dollarDelta + (if u = v then δ else 0) := by
  intro gs
  induction gs with
  | nil =>
    intro u
    by_cases h : u = v
    · subst h
      simp [updateGroupWith, getGroup, hf, h0]
    · simp [updateGroupWith, getGroup, h, Ne.symm h]
  | cons hd t ih =>
    intro u
    obtain ⟨w, g⟩ := hd
    by_cases hwv : w = v
    · subst hwv
      simp only [updateGroupWith, if_pos rfl]
      by_cases hwu : w = u
      · subst hwu
        simp [getGroup, hf]
      · simp [getGroup, hwu, Ne.symm hwu]
    · simp only [updateGroupWith, if_neg hwv]
      by_cases hwu : w = u
      · subst hwu
        simp [getGroup, hwv, Ne.symm hwv]
      · simp [getGroup, hwu, ih]

theorem foldl_dd {α : Type} (step : Groups → α → Groups) (contrib : α → ℚ) (u : ℕ)
    (h : ∀ gs a, (getGroup (step gs a) u).dollarDelta =
      (getGroup gs u).dollarDelta + contrib a) :
    ∀ (l : List α) (gs : Groups),
      (getGroup (l.foldl step gs) u).dollarDelta =
        (getGroup gs u).dollarDelta + (l.map contrib).sum := by
  intro l
  induction l with
  | nil => intro gs; simp
  | cons a t ih =>
    intro gs
    rw [List.foldl_cons, ih, h, List.map_cons, List.sum_cons]
    ring

theorem holdingStep_dd (s : AlgoState) (u : ℕ) (gs : Groups) (w : ℕ) :
    (getGroup (holdingStep s gs w) u).dollarDelta = (getGroup gs u).dollarDelta := by
  simp only [holdingStep]
  split
  · rfl
  · split
    · split
      · split
        · rfl
        · rw [getGroup_updateGroupWith_dd _ _ _ 0 (fun g => by simp) rfl]
          simp
      · rfl
    · rfl

theorem optionContribStep_dd (s : AlgoState) (u : ℕ) (gs : Groups)
    (optSym : ℕ) (qty : ℚ) :
    (getGroup (optionContribStep s gs optSym qty) u).dollarDelta =
      (getGroup gs u).dollarDelta +
      (if secIn s (undOf s optSym) ∧ undOf s optSym = u then
        s.providerDelta optSym * qty * upcOf (assetKind s u) * priceOf s u else 0) := by
  simp only [optionContribStep]
  by_cases h1 : secIn s (undOf s optSym)
  · rw [if_neg (not_not_intro h1)]
    rw [getGroup_updateGroupWith_dd (undOf s optSym) {} _
      (s.providerDelta optSym * qty * upcOf (assetKind s (undOf s optSym)) *
        priceOf s (undOf s optSym)) (fun g => by simp) rfl]
    by_cases h2 : undOf s optSym = u
    · rw [if_pos h2.symm, if_pos ⟨h1, h2⟩, h2]
    · rw [if_neg (fun hh => h2 hh.symm), if_neg (fun hh => h2 hh.2)]
  · rw [if_pos h1, if_neg (fun hh => h1 hh.1)]
    simp

theorem filledStep_dd (s : AlgoState) (u : ℕ) (gs : Groups) (fp : FilledPos) :
    (getGroup (filledStep s gs fp) u).dollarDelta =
      (getGroup gs u).dollarDelta + filledDDContrib s u fp := by
  simp only [filledStep, filledDDContrib]
  by_cases h1 : secIn s fp.symbol
  · rw [if_neg (not_not_intro h1), optionContribStep_dd]
    congr 1
    by_cases h2 : secIn s (undOf s fp.symbol) ∧ undOf s fp.symbol = u
    · rw [if_pos h2, if_pos ⟨h1, h2.1, h2.2⟩]
    · rw [if_neg h2, if_neg (fun hh => h2 ⟨hh.2.1, hh.2.2⟩)]
  · rw [if_pos h1, if_neg (fun hh => h1 hh.1)]
    simp

theorem activeStep_dd (s : AlgoState) (filled : List FilledPos) (u : ℕ)
    (gs : Groups) (p : Position) :
    (getGroup (activeStep s filled gs p) u).dollarDelta =
      (getGroup gs u).dollarDelta + activeDDContrib s filled u p := by
  simp only [activeStep, activeDDContrib]
  cases hs : p.symbol with
  | none => simp
  | some optSym =>
    dsimp only
    by_cases h1 : secIn s optSym
    · rw [if_neg (not_not_intro h1)]
      by_cases h2 : (filled.any (fun fp => fp.symbol = optSym)) = true
      · rw [if_pos h2, if_neg (fun hh => hh.2.1 h2)]
        simp
      · rw [if_neg h2, optionContribStep_dd]
        congr 1
        by_cases h3 : secIn s (undOf s optSym) ∧ undOf s optSym = u
        · rw [if_pos h3, if_pos ⟨h1, h2, h3.1, h3.2⟩]
        · rw [if_neg h3, if_neg (fun hh => h3 ⟨hh.2.2.1, hh.2.2.2⟩)]
    · rw [if_pos h1, if_neg (fun hh => h1 hh.1)]
      simp

theorem hedgeStep_dd (s : AlgoState) (u : ℕ) (gs : Groups) (pp : String × Position) :
    (getGroup (hedgeStep s gs pp) u).dollarDelta =
      (getGroup gs u).dollarDelta + hedgeDDContrib s u pp := by
  simp only [hedgeStep, hedgeDDContrib]
  by_cases h1 : (startsWithHedge pp.1 && pp.2.isHedge && decide (pp.2.quantity ≠ 0)) = true
  · rw [if_pos h1, if_pos h1]
    cases hs : pp.2.symbol with
    | none => simp
    | some w =>
      dsimp only
      by_cases h2 : secIn s w
      · rw [if_neg (not_not_intro h2)]
        rw [getGroup_updateGroupWith_dd w _ _ (pp.2.quantity * priceOf s w)
          (fun g => by simp) rfl]
        by_cases h3 : w = u
        · subst h3
          rw [if_pos rfl, if_pos ⟨h2, rfl⟩]
        · rw [if_neg (fun hh => h3 hh.symm), if_neg (fun hh => h3 hh.2)]
      · rw [if_pos h2, if_neg (fun hh => h2 hh.1)]
        simp
  · rw [if_neg h1, if_neg h1]
    simp

theorem pendStep_dd (s : AlgoState) (u : ℕ) (gs : Groups) (it : PendItem) :
    (getGroup (pendStep s gs it) u).dollarDelta =
      (getGroup gs u).dollarDelta + pendDDContrib s u it := by
  simp only [pendStep, pendDDContrib]
  by_cases h1 : (s.positions.any (fun pp =>
      decide (pp.2.quantity ≠ 0) && !pp.2.isHedge && decide (pp.2.symbol = some it.symbol))) = true
  · rw [if_pos h1, if_pos h1]
    simp
  · rw [if_neg h1, if_neg h1]
    by_cases h2 : secIn s it.symbol
    · rw [if_neg (not_not_intro h2)]
      by_cases h3 : secIn s (undOf s it.symbol)
      · rw [if_neg (not_not_intro h3)]
        rw [getGroup_updateGroupWith_dd (undOf s it.symbol) _ _
          ((match (s.securities.lookup it.symbol).bind Security.greeksDelta with
            | some dv => dv
            | none => it.cachedDelta) * it.qty * upcOf (assetKind s (undOf s it.symbol)) *
            priceOf s (undOf s it.symbol)) (fun g => by simp) rfl]
        by_cases h4 : undOf s it.symbol = u
        · rw [if_pos h4.symm, if_pos ⟨h2, h3, h4⟩, h4]
        · rw [if_neg (fun hh => h4 hh.symm), if_neg (fun hh => h4 hh.2.2)]
      · rw [if_pos h3, if_neg (fun hh => h3 hh.2.1)]
        simp
    · rw [if_pos h2, if_neg (fun hh => h2 hh.1)]
      simp

/-- The dollar delta of the group keyed `u` is the sum of the per-item
contributions of the four contributing loops (the holdings loop never
touches dollar delta). -/
theorem computeDeltaGroups_dd (s : AlgoState) (pending : List PendItem) (u : ℕ) :
    (getGroup (computeDeltaGroups s pending) u).dollarDelta =
      ((filledOptionPositions s).map (filledDDContrib s u)).sum
    + ((activeOptionPositions s).map (activeDDContrib s (filledOptionPositions s) u)).sum
    + (s.positions.map (hedgeDDContrib s u)).sum
    + (pending.map (pendDDContrib s u)).sum := by
  show (getGroup (pending.foldl (pendStep s)
      (s.positions.foldl (hedgeStep s)
        ((activeOptionPositions s).foldl (activeStep s (filledOptionPositions s))
          ((filledOptionPositions s).foldl (filledStep s)
            ((relevantUnderlyings s pending).foldl (holdingStep s) []))))) u).dollarDelta = _
  rw [foldl_dd (pendStep s) (pendDDContrib s u) u (fun gs it => pendStep_dd s u gs it),
    foldl_dd (hedgeStep s) (hedgeDDContrib s u) u (fun gs pp => hedgeStep_dd s u gs pp),
    foldl_dd (activeStep s (filledOptionPositions s))
      (activeDDContrib s (filledOptionPositions s) u) u
      (fun gs p => activeStep_dd s (filledOptionPositions s) u gs p),
    foldl_dd (filledStep s) (filledDDContrib s u) u (fun gs fp => filledStep_dd s u gs fp),
    foldl_dd (holdingStep s) (fun _ => (0:ℚ)) u
      (fun gs w => by rw [holdingStep_dd]; ring)]
  simp [getGroup]

theorem upcOf_equity {s : AlgoState} {u : ℕ} (hk : assetKind s u = AssetKind.equity) :
    upcOf (assetKind s u) = 100 := by
  rw [hk]; rfl

/-- C2: for every exposure group over a multiplier-100 (equity-kind)
underlying, the reported dollar delta is the sum of the per-position
contributions, and each contribution is the claim's formula: a counted
option position (filled, active-unfilled, or pending intent) contributes
`delta × signed_quantity × 100 × underlying_price`, and a counted
hedge-ledger entry contributes `signed_quantity × price`. -/
theorem additivity_c2 (s : AlgoState) (pending : List PendItem) (u : ℕ)
    (hk : assetKind s u = AssetKind.equity) :
    (getGroup (computeDeltaGroups s pending) u).dollarDelta =
      ((filledOptionPositions s).map (filledDDContrib s u)).sum
    + ((activeOptionPositions s).map (activeDDContrib s (filledOptionPositions s) u)).sum
    + (s.positions.map (hedgeDDContrib s u)).sum
    + (pending.map (pendDDContrib s u)).sum ∧
    (∀ fp, filledDDContrib s u fp =
      if secIn s fp.symbol ∧ secIn s (undOf s fp.symbol) ∧ undOf s fp.symbol = u then
        s.providerDelta fp.symbol * fp.quantity * 100 * priceOf s u else 0) ∧
    (∀ (p : Position) (optSym : ℕ), p.symbol = some optSym →
      activeDDContrib s (filledOptionPositions s) u p =
      if secIn s optSym ∧
          ¬ (filledOptionPositions s).any (fun fp => fp.symbol = optSym) ∧
          secIn s (undOf s optSym) ∧ undOf s optSym = u then
        s.providerDelta optSym * p.quantity * 100 * priceOf s u else 0) ∧
    (∀ pp : String × Position,
      (startsWithHedge pp.1 && pp.2.isHedge && decide (pp.2.quantity ≠ 0)) = true →
      pp.2.symbol = some u → secIn s u →
      hedgeDDContrib s u pp = pp.2.quantity * priceOf s u) ∧
    (∀ it : PendItem, pendDDContrib s u it =
      if s.positions.any (fun pp => decide (pp.2.quantity ≠ 0) && !pp.2.isHedge &&
          decide (pp.2.symbol = some it.symbol)) then 0
      else if secIn s it.symbol ∧ secIn s (undOf s it.symbol) ∧ undOf s it.symbol = u then
        (match (s.securities.lookup it.symbol).bind Security.greeksDelta with
          | some dv => dv
          | none => it.cachedDelta) * it.qty * 100 * priceOf s u
      else 0) := by
  refine ⟨computeDeltaGroups_dd s pending u, ?_, ?_, ?_, ?_⟩
  · intro fp
    simp only [filledDDContrib, upcOf_equity hk]
  · intro p optSym hsym
    simp only [activeDDContrib, hsym, upcOf_equity hk]
  · intro pp hguard hsym hsec
    simp only [hedgeDDContrib, hguard, if_true, hsym]
    simp [hsec]
  · intro it
    simp only [pendDDContrib, upcOf_equity hk]

/-- Witness for C2 at Scenario A: with the short put (delta −0.20,
quantity −1, multiplier 100, underlying 450) the additivity identity holds
and the group dollar delta evaluates to $9,000. -/
theorem additivity_c2_witness :
    ((getGroup (computeDeltaGroups stScenA []) 0).dollarDelta =
      ((filledOptionPositions stScenA).map (filledDDContrib stScenA 0)).sum
    + ((activeOptionPositions stScenA).map
        (activeDDContrib stScenA (filledOptionPositions stScenA) 0)).sum
    + (stScenA.positions.map (hedgeDDContrib stScenA 0)).sum
    + (([] : List PendItem).map (pendDDContrib stScenA 0)).sum) ∧
    (getGroup (computeDeltaGroups stScenA []) 0).dollarDelta = 9000 := by
  refine ⟨(additivity_c2 stScenA [] 0 rfl).1, ?_⟩
  rw [computeDeltaGroups_dd]
  norm_num [filledOptionPositions, activeOptionPositions, stScenA, filledDDContrib,
    activeDDContrib, hedgeDDContrib, pendDDContrib, secIn, undOf, priceOf, upcOf,
    assetKind, List.filterMap_cons, List.filterMap_nil, List.map_cons, List.map_nil,
    List.sum_cons, List.sum_nil, List.filter_cons, List.filter_nil, List.lookup]
  decide

/-- C2 counterexample: on a future-kind underlying (`stFut`, contract
multiplier 50) the code multiplies by units-per-contract 1, not 100: the
filled short put (delta −0.20, quantity −1, underlying price 450) yields a
group dollar delta of $90, while the claim's fixed
`delta × signed_quantity × 100 × underlying_price` formula gives $9,000. -/
theorem additivity_c2_counterexample :
    assetKind stFut 0 = AssetKind.future ∧
    (getGroup (computeDeltaGroups stFut []) 0).dollarDelta = 90 ∧
    stFut.providerDelta 1 * (-1 : ℚ) * 100 * priceOf stFut 0 = 9000 ∧
    (90 : ℚ) ≠ 9000 := by
  refine ⟨by decide, ?_, by norm_num [stFut, priceOf, List.lookup], by norm_num⟩
  rw [computeDeltaGroups_dd]
  norm_num [filledOptionPositions, activeOptionPositions, stFut, filledDDContrib,
    activeDDContrib, hedgeDDContrib, pendDDContrib, secIn, undOf, priceOf, upcOf,
    assetKind, List.filterMap_cons, List.filterMap_nil, List.map_cons, List.map_nil,
    List.sum_cons, List.sum_nil, List.filter_cons, List.filter_nil, List.lookup]
  decide

/-- C6 counterexample: `stZeroPrice`'s underlying 0 has price 0, yet
`compute_delta_groups` still produces an exposure group for it, with a
nonzero unit-delta exposure of 25 — the underlying is not "skipped
entirely". -/
theorem nonpositive_price_c6_counterexample :
    priceOf stZeroPrice 0 = 0 ∧
    ((computeDeltaGroups stZeroPrice []).lookup 0).isSome = true ∧
    (getGroup (computeDeltaGroups stZeroPrice []) 0).units = 25 := by
  have hsw : startsWithHedge "p1" = false := by decide
  refine ⟨by norm_num [priceOf, stZeroPrice], ?_, ?_⟩ <;>
    norm_num [computeDeltaGroups, relevantUnderlyings, insertUniq,
      filledOptionPositions, activeOptionPositions, holdingStep, filledStep,
      activeStep, optionContribStep, hedgeStep, pendStep, stZeroPrice, secIn,
      undOf, priceOf, assetKind, multOf, upcOf, futMult, updateGroupWith,
      getGroup, hsw]

/-- C6 (amended): an underlying whose price is zero can still yield an
exposure group (with unit-delta exposure), but every dollar-delta
contribution carries the zero price as a factor, so the group's dollar
delta is zero and the Phase-2 rebalance loop skips it
(`dollar_delta == 0`) before any hedge-sizing division. -/
theorem nonpositive_price_c6 (s : AlgoState) (pending : List PendItem) (u : ℕ)
    (hp : priceOf s u = 0) (cfg : P2Config) :
    (getGroup (computeDeltaGroups s pending) u).dollarDelta = 0 ∧
    p2GroupActionNav cfg (getGroup (computeDeltaGroups s pending) u) =
      P2Action.noAction := by
  have hdd : (getGroup (computeDeltaGroups s pending) u).dollarDelta = 0 := by
    rw [computeDeltaGroups_dd]
    have hs1 : ((filledOptionPositions s).map (filledDDContrib s u)).sum = 0 := by
      refine List.sum_eq_zero ?_
      intro x hx
      obtain ⟨fp, _, rfl⟩ := List.mem_map.mp hx
      simp [filledDDContrib, hp]
    have hs2 : ((activeOptionPositions s).map
        (activeDDContrib s (filledOptionPositions s) u)).sum = 0 := by
      refine List.sum_eq_zero ?_
      intro x hx
      obtain ⟨p, _, rfl⟩ := List.mem_map.mp hx
      unfold activeDDContrib
      cases p.symbol with
      | none => rfl
      | some optSym => simp [hp]
    have hs3 : (s.positions.map (hedgeDDContrib s u)).sum = 0 := by
      refine List.sum_eq_zero ?_
      intro x hx
      obtain ⟨pp, _, rfl⟩ := List.mem_map.mp hx
      unfold hedgeDDContrib
      split
      · cases pp.2.symbol with
        | none => rfl
        | some w => simp [hp]
      · rfl
    have hs4 : (pending.map (pendDDContrib s u)).sum = 0 := by
      refine List.sum_eq_zero ?_
      intro x hx
      obtain ⟨it, _, rfl⟩ := List.mem_map.mp hx
      simp [pendDDContrib, hp]
    rw [hs1, hs2, hs3, hs4]
    ring
  refine ⟨hdd, ?_⟩
  unfold p2GroupActionNav
  rw [if_pos hdd]

/-- Witness for C6 (amended) at the zero-price state. -/
theorem nonpositive_price_c6_witness :
    (getGroup (computeDeltaGroups stZeroPrice []) 0).dollarDelta = 0 ∧
    p2GroupActionNav cfgScenB (getGroup (computeDeltaGroups stZeroPrice []) 0) =
      P2Action.noAction :=
  nonpositive_price_c6 stZeroPrice [] 0 (by norm_num [priceOf, stZeroPrice]) cfgScenB

/-! ### Purity of `compute_delta_groups` (C7) -/

theorem foldl_pairConst {α : Type} (f : AlgoState → Groups → α → Groups) :
    ∀ (l : List α) (gs : Groups) (s : AlgoState),
      l.foldl (fun x a => (f x.2 x.1 a, x.2)) (gs, s) =
        (l.foldl (fun gs a => f s gs a) gs, s) := by
  intro l
  induction l with
  | nil => intro gs s; rfl
  | cons a t ih =>
    intro gs s
    rw [List.foldl_cons, List.foldl_cons]
    exact ih (f s gs a) s

theorem computeDeltaGroupsSt_eq (s : AlgoState) (pending : List PendItem) :
    computeDeltaGroupsSt s pending = (computeDeltaGroups s pending, s) := by
  simp only [computeDeltaGroupsSt, computeDeltaGroups]
  rw [foldl_pairConst (fun st gs u => holdingStep st gs u)]
  try dsimp only
  rw [foldl_pairConst (fun st gs fp => filledStep st gs fp)]
  try dsimp only
  rw [foldl_pairConst (fun st gs p => activeStep st (filledOptionPositions s) gs p)]
  try dsimp only
  rw [foldl_pairConst (fun st gs pp => hedgeStep st gs pp)]
  try dsimp only
  rw [foldl_pairConst (fun st gs it => pendStep st gs it)]

/-- C7: `compute_delta_groups` leaves the algorithm state (ledger, security
prices, Greeks caches) unchanged, and a second call on the state returned
by the first call yields the identical output. -/
theorem compute_delta_groups_pure_c7 (s : AlgoState) (pending : List PendItem) :
    (computeDeltaGroupsSt s pending).2 = s ∧
    (computeDeltaGroupsSt ((computeDeltaGroupsSt s pending).2) pending).1 =
      (computeDeltaGroupsSt s pending).1 := by
  simp [computeDeltaGroupsSt_eq]

/-! ### Margin-constrained Phase 2: reduction instead of hedging (C3) -/

theorem pyInt_intCast (n : ℤ) : pyInt ((n : ℚ)) = n := by
  unfold pyInt
  split
  · exact Int.floor_intCast n
  · exact Int.ceil_intCast n

theorem pyRound_intCast (n : ℤ) : pyRound ((n : ℚ)) = n := by
  norm_num [pyRound, Int.floor_intCast]

theorem mem_sortInsert (key : RPos → ℚ) (a c : RPos) :
    ∀ l : List RPos, c ∈ sortInsert key a l ↔ c = a ∨ c ∈ l := by
  intro l
  induction l with
  | nil => simp [sortInsert]
  | cons b t ih =>
    simp only [sortInsert]
    split
    · rw [List.mem_cons, ih, List.mem_cons]
      tauto
    · simp only [List.mem_cons]

theorem sortInsert_sorted (key : RPos → ℚ) (a : RPos) :
    ∀ l : List RPos, List.Pairwise (fun x y => key y ≤ key x) l →
      List.Pairwise (fun x y => key y ≤ key x) (sortInsert key a l) := by
  intro l
  induction l with
  | nil => intro _; simp [sortInsert]
  | cons b t ih =>
    intro hp
    rw [List.pairwise_cons] at hp
    simp only [sortInsert]
    split
    case isTrue hab =>
      rw [List.pairwise_cons]
      refine ⟨?_, ih hp.2⟩
      intro c hc
      rcases (mem_sortInsert key a c t).mp hc with rfl | hct
      · exact hab
      · exact hp.1 c hct
    case isFalse hab =>
      rw [List.pairwise_cons]
      refine ⟨?_, List.pairwise_cons.mpr hp⟩
      intro c hc
      rcases List.mem_cons.mp hc with rfl | hct
      · exact le_of_not_le hab
      · exact le_trans (hp.1 c hct) (le_of_not_le hab)

theorem sortByKeyDesc_sorted (key : RPos → ℚ) :
    ∀ l : List RPos, List.Pairwise (fun x y => key y ≤ key x) (sortByKeyDesc key l) := by
  intro l
  induction l with
  | nil => simp [sortByKeyDesc]
  | cons a t ih =>
    simp only [sortByKeyDesc]
    exact sortInsert_sorted key a _ ih

theorem reduceLoop_orders_sublist (target undPrice maxPct : ℚ) :
    ∀ (l : List RPos) (total : ℚ),
      List.Sublist ((reduceLoop target undPrice maxPct l total).1.map Prod.fst) l := by
  intro l
  induction l with
  | nil => intro total; simp [reduceLoop]
  | cons p rest ih =>
    intro total
    by_cases h1 : target ≤ total
    · simp [reduceLoop, if_pos h1]
    · by_cases h2 : |p.delta| * 100 * undPrice ≤ 0
      · simp only [reduceLoop, if_neg h1, if_pos h2]
        exact (ih total).cons p
      · by_cases h3 : min (min (pyInt ((target - total) / (|p.delta| * 100 * undPrice)))
            (pyInt (|p.quantity| * maxPct))) (pyInt |p.quantity|) = 0
        · simp only [reduceLoop, if_neg h1, if_neg h2, if_pos h3]
          exact (ih total).cons p
        · simp only [reduceLoop, if_neg h1, if_neg h2, if_neg h3, List.map_cons]
          exact List.Sublist.cons₂ p (ih _)

theorem reduceLoop_orders_bound (target undPrice maxPct : ℚ) (hpct : 0 ≤ maxPct) :
    ∀ (l : List RPos) (total : ℚ) (pq : RPos × ℤ),
      pq ∈ (reduceLoop target undPrice maxPct l total).1 →
      |pq.2| ≤ pyInt (|pq.1.quantity| * maxPct) ∧ |pq.2| ≤ pyInt |pq.1.quantity| ∧
        pq.2 ≠ 0 := by
  intro l
  induction l with
  | nil => intro total pq h; simp [reduceLoop] at h
  | cons p rest ih =>
    intro total pq hmem
    by_cases h1 : target ≤ total
    · simp [reduceLoop, if_pos h1] at hmem
    · by_cases h2 : |p.delta| * 100 * undPrice ≤ 0
      · simp only [reduceLoop, if_neg h1, if_pos h2] at hmem
        exact ih total pq hmem
      · by_cases h3 : min (min (pyInt ((target - total) / (|p.delta| * 100 * undPrice)))
            (pyInt (|p.quantity| * maxPct))) (pyInt |p.quantity|) = 0
        · simp only [reduceLoop, if_neg h1, if_neg h2, if_pos h3] at hmem
          exact ih total pq hmem
        · simp only [reduceLoop, if_neg h1, if_neg h2, if_neg h3] at hmem
          rcases List.mem_cons.mp hmem with rfl | hmem'
          · have hrem : (0:ℚ) < target - total := by
              rw [sub_pos]; exact lt_of_not_le h1
            have hdpc : (0:ℚ) < |p.delta| * 100 * undPrice := lt_of_not_le h2
            have hA : (0:ℤ) ≤ pyInt ((target - total) / (|p.delta| * 100 * undPrice)) := by
              rw [pyInt_of_nonneg (div_nonneg hrem.le hdpc.le)]
              exact Int.floor_nonneg.mpr (div_nonneg hrem.le hdpc.le)
            have hB : (0:ℤ) ≤ pyInt (|p.quantity| * maxPct) := by
              have harg : (0:ℚ) ≤ |p.quantity| * maxPct :=
                mul_nonneg (abs_nonneg _) hpct
              rw [pyInt_of_nonneg harg]
              exact Int.floor_nonneg.mpr harg
            have hC : (0:ℤ) ≤ pyInt |p.quantity| := by
              rw [pyInt_of_nonneg (abs_nonneg _)]
              exact Int.floor_nonneg.mpr (abs_nonneg _)
            set n := min (min (pyInt ((target - total) / (|p.delta| * 100 * undPrice)))
              (pyInt (|p.quantity| * maxPct))) (pyInt |p.quantity|) with hn
            have hn0 : 0 ≤ n := le_min (le_min hA hB) hC
            have hnpos : 0 < n := lt_of_le_of_ne hn0 (Ne.symm h3)
            have habs : |(if 0 < p.quantity then -n else n)| = n := by
              split
              · rw [abs_neg]; exact abs_of_pos hnpos
              · exact abs_of_pos hnpos
            refine ⟨?_, ?_, ?_⟩
            · rw [habs]
              exact le_trans (min_le_left _ _) (min_le_right _ _)
            · rw [habs]
              exact min_le_right _ _
            · dsimp only
              split <;> omega
          · exact ih _ pq hmem'

theorem reduceLoop_stop (target undPrice maxPct : ℚ) :
    ∀ (l : List RPos) (total : ℚ),
      (reduceLoop target undPrice maxPct l total).2.2 ≠ [] →
      target ≤ (reduceLoop target undPrice maxPct l total).2.1 := by
  intro l
  induction l with
  | nil => intro total h; simp [reduceLoop] at h
  | cons p rest ih =>
    intro total h
    by_cases h1 : target ≤ total
    · simpa [reduceLoop, if_pos h1] using h1
    · by_cases h2 : |p.delta| * 100 * undPrice ≤ 0
      · simp only [reduceLoop, if_neg h1, if_pos h2] at h ⊢
        exact ih total h
      · by_cases h3 : min (min (pyInt ((target - total) / (|p.delta| * 100 * undPrice)))
            (pyInt (|p.quantity| * maxPct))) (pyInt |p.quantity|) = 0
        · simp only [reduceLoop, if_neg h1, if_neg h2, if_pos h3] at h ⊢
          exact ih total h
        · simp only [reduceLoop, if_neg h1, if_neg h2, if_neg h3] at h ⊢
          exact ih _ h

/-- C3 (amended): when the candidate Phase-2 underlying hedge would push
projected margin utilization above the overnight ceiling (and reduction is
enabled), the hedge is rejected and option-position reduction runs
instead; the reduction closes positions in descending reduction-score
order, bounds every emitted order by the max-reduction percentage of the
position (and by the position size), and stops only once the absolute
dollar-delta reduction target is met or every position has been examined.
(The source's Phase-2 reduction path does not unwind hedge legs; see the
counterexample.) -/
theorem margin_reduction_c3 (cfg : P2Config) (g : GroupData) (s : AlgoState)
    (w : ReduceConfig) (u : ℕ)
    (hdd : g.dollarDelta ≠ 0)
    (hout : ¬ ((p2Band cfg g).2.1 ≤ g.dollarDelta ∧ g.dollarDelta ≤ (p2Band cfg g).2.2))
    (hu : p2Units cfg g ≠ 0)
    (hover : cfg.overnightMarginMax < p2ProjUtil cfg g)
    (hen : cfg.optionReductionEnabled = true)
    (hpct : 0 ≤ w.maxReductionPct) :
    p2GroupActionNav cfg g = P2Action.reduce (p2Desired cfg g - g.dollarDelta) ∧
    (∀ units, p2GroupActionNav cfg g ≠ P2Action.hedge units) ∧
    List.Pairwise (fun a b => scoreOf w (priceOf s u) b.1 ≤ scoreOf w (priceOf s u) a.1)
      (executeOptionPositionReduction s w u (p2Desired cfg g - g.dollarDelta)).1 ∧
    (∀ pq ∈ (executeOptionPositionReduction s w u (p2Desired cfg g - g.dollarDelta)).1,
      |pq.2| ≤ pyInt (|pq.1.quantity| * w.maxReductionPct) ∧
      |pq.2| ≤ pyInt |pq.1.quantity| ∧ pq.2 ≠ 0) ∧
    (|p2Desired cfg g - g.dollarDelta| ≤
        (executeOptionPositionReduction s w u (p2Desired cfg g - g.dollarDelta)).2.1 ∨
      (executeOptionPositionReduction s w u (p2Desired cfg g - g.dollarDelta)).2.2 = []) := by
  have haction : p2GroupActionNav cfg g =
      P2Action.reduce (p2Desired cfg g - g.dollarDelta) := by
    unfold p2GroupActionNav
    rw [if_neg hdd, if_neg hout, if_neg hu,
      if_neg (fun hh => absurd hh.1 (not_le.mpr hover)),
      if_pos ⟨hover, hen⟩]
  refine ⟨haction, ?_, ?_, ?_, ?_⟩
  · intro units hcontra
    rw [haction] at hcontra
    exact P2Action.noConfusion hcontra
  · have hsub := reduceLoop_orders_sublist |p2Desired cfg g - g.dollarDelta| (priceOf s u)
      w.maxReductionPct
      (sortByKeyDesc (scoreOf w (priceOf s u)) (reducePositions s u)) 0
    have hsorted := sortByKeyDesc_sorted (scoreOf w (priceOf s u)) (reducePositions s u)
    have hpair := List.Pairwise.sublist hsub hsorted
    rw [List.pairwise_map] at hpair
    exact hpair
  · intro pq hpq
    exact reduceLoop_orders_bound _ _ _ hpct _ 0 pq hpq
  · rcases eq_or_ne (executeOptionPositionReduction s w u
        (p2Desired cfg g - g.dollarDelta)).2.2 [] with he | hne
    · exact Or.inr he
    · exact Or.inl (reduceLoop_stop _ _ _ _ 0 hne)

theorem reducePositions_stC3 : reducePositions stC3 0 = [rpC3] := by
  norm_num [reducePositions, stC3, rpC3, secIn, undOf, priceOf,
    List.filterMap_cons, List.filterMap_nil, List.lookup,
    show ((1:ℕ) == 0) = false from rfl, show ((1:ℕ) == 1) = true from rfl,
    show ((0:ℕ) == 0) = true from rfl]

theorem priceOf_stC3 : priceOf stC3 0 = 100 := by
  norm_num [priceOf, stC3, List.lookup, show ((0:ℕ) == 0) = true from rfl]

/-- The full reduction run on `stC3`: one order closing 2 of the 10 short
puts (20% cap), reducing $5,000 of the $20,000 target. -/
theorem executeOptionPositionReduction_stC3 :
    executeOptionPositionReduction stC3 wC3 0 (-20000) = ([(rpC3, 2)], 5000, []) := by
  have hkey : sortByKeyDesc (scoreOf wC3 (priceOf stC3 0)) (reducePositions stC3 0)
      = [rpC3] := by
    rw [reducePositions_stC3]
    rfl
  have hA : pyInt (((20000:ℚ) - 0) / (|rpC3.delta| * 100 * 100)) = 8 := by
    rw [show ((20000:ℚ) - 0) / (|rpC3.delta| * 100 * 100) = ((8:ℤ):ℚ) from by
      norm_num [rpC3, abs_of_nonneg]]
    exact pyInt_intCast 8
  have hB : pyInt (|rpC3.quantity| * wC3.maxReductionPct) = 2 := by
    rw [show |rpC3.quantity| * wC3.maxReductionPct = ((2:ℤ):ℚ) from by
      norm_num [rpC3, wC3, abs_of_nonneg]]
    exact pyInt_intCast 2
  have hC : pyInt |rpC3.quantity| = 10 := by
    rw [show |rpC3.quantity| = ((10:ℤ):ℚ) from by norm_num [rpC3]]
    exact pyInt_intCast 10
  simp only [executeOptionPositionReduction]
  rw [hkey, priceOf_stC3, show |(-20000 : ℚ)| = 20000 from by norm_num]
  simp only [reduceLoop]
  rw [if_neg (show ¬((20000:ℚ) ≤ 0) from by norm_num),
    if_neg (show ¬(|rpC3.delta| * 100 * (100:ℚ) ≤ 0) from by norm_num [rpC3]),
    hA, hB, hC,
    show min (min (8:ℤ) 2) 10 = 2 from by decide,
    if_neg (show ¬((2:ℤ) = 0) from by decide),
    if_neg (show ¬((0:ℚ) < rpC3.quantity) from by norm_num [rpC3])]
  norm_num [rpC3, abs_of_nonneg]

/-- C3 counterexample (to the proportional-unwind clause): `stC3` carries a
hedge-ledger leg of 300 shares of underlying 0, yet the executed reduction
emits only the option order (2 contracts of symbol 1) and no order on the
hedged underlying — the Phase-2 reduction path performs no hedge
unwinding. -/
theorem margin_reduction_c3_counterexample :
    (executeOptionPositionReduction stC3 wC3 0 (-20000)).1 = [(rpC3, 2)] ∧
    stC3.positions.any (fun pp => pp.2.isHedge) = true ∧
    ∀ pq ∈ (executeOptionPositionReduction stC3 wC3 0 (-20000)).1,
      pq.1.symbol ≠ stC3.underlyingSymbol := by
  refine ⟨by rw [executeOptionPositionReduction_stC3], by norm_num [stC3], ?_⟩
  intro pq hpq
  rw [executeOptionPositionReduction_stC3] at hpq
  rcases List.mem_cons.mp hpq with rfl | h
  · norm_num [rpC3, stC3]
  · simp at h

theorem p2Units_cfgC3 : p2Units cfgC3 grpC3 = -200 := by
  unfold p2Units
  rw [show (p2Desired cfgC3 grpC3 - grpC3.dollarDelta) /
      (if grpC3.kind = some AssetKind.equity then grpC3.price else grpC3.price * grpC3.mult)
      = ((-200 : ℤ) : ℚ) from by
    norm_num [p2Desired, p2Band, navTargetAndBand, cfgC3, grpC3]]
  exact pyRound_intCast _

theorem p2ProjUtil_cfgC3 : p2ProjUtil cfgC3 grpC3 = 53/50 := by
  unfold p2ProjUtil
  rw [p2Units_cfgC3]
  norm_num [cfgC3, grpC3]

/-- Witness for C3 (amended): at the stressed configuration the action is
reduction (not an underlying hedge), and the run on `stC3` terminates by
exhausting the position list under the 20% per-position cap. -/
theorem margin_reduction_c3_witness :
    p2GroupActionNav cfgC3 grpC3 =
      P2Action.reduce (p2Desired cfgC3 grpC3 - grpC3.dollarDelta) ∧
    (|p2Desired cfgC3 grpC3 - grpC3.dollarDelta| ≤
        (executeOptionPositionReduction stC3 wC3 0
          (p2Desired cfgC3 grpC3 - grpC3.dollarDelta)).2.1 ∨
      (executeOptionPositionReduction stC3 wC3 0
        (p2Desired cfgC3 grpC3 - grpC3.dollarDelta)).2.2 = []) := by
  have h := margin_reduction_c3 cfgC3 grpC3 stC3 wC3 0
    (by norm_num [grpC3])
    (by norm_num [p2Band, navTargetAndBand, cfgC3, grpC3])
    (by rw [p2Units_cfgC3]; norm_num)
    (by rw [p2ProjUtil_cfgC3]; norm_num [cfgC3])
    rfl
    (by norm_num [wC3])
  exact ⟨h.1, h.2.2.2.2⟩

end ThetaEngine
